import Mathlib

/-!
Verification of the fde push-deployment pipeline core.

This file gives a shallow embedding of the parts of the code base that the
verified properties speak about:

* the server-side chunk storage (`src/server/services/chunkStorage.ts`),
* the upload route handlers (`src/server/routes` chunk-upload handlers),
* the request validator (`validation.ts`),
* the deploy state store (`src/server/services/deployState.ts`),
* the streamed-deploy / resume handlers and their interleaving with the
  100 ms polling loop,
* the client chunk uploader with its retry policy (`stream-upload.ts`).

Buffers (Node `Buffer`) are modelled as `List UInt8`, timestamps
(`Date.now()` / `Date`) as integers in milliseconds passed in explicitly,
and the filesystem of one upload-task directory as a record holding the
optional `metadata.json` content and a map from chunk index to optional
chunk-file content.  Cryptographic hash functions (`node:crypto`) are
external to the repository and are modelled as parameters.
-/

namespace Fde

/-! ## Chunk storage (`chunkStorage.ts`) -/

/-- Mirror of the `UploadMetadata` interface of `chunkStorage.ts`. -/
structure UploadMetadata where
  uploadId : String
  totalChunks : Nat
  uploadedChunks : List Nat
  fileName : Option String := none
  checksum : Option String := none
  env : String
  shouldExtract : Bool
  createdAt : Nat
  updatedAt : Nat
deriving DecidableEq, Repr

/-- On-disk state of one upload-task directory `<chunkRoot>/<uploadId>/`:
whether the directory exists, the parsed content of `metadata.json` when the
file is present, and the content of each `chunk_NNNNNN` file. -/
structure UploadDirState where
  dirExists : Bool
  metadata : Option UploadMetadata
  chunkFiles : Nat → Option (List UInt8)

/-- A task directory that was never created (or was removed). -/
def emptyUploadDir : UploadDirState :=
  { dirExists := false, metadata := none, chunkFiles := fun _ => none }

/-- `initUpload` of `chunkStorage.ts`: if `metadata.json` exists, return the
existing metadata unchanged; otherwise create the directory and fresh
metadata with an empty `uploadedChunks` list. -/
def initUpload (s : UploadDirState) (uploadId : String) (totalChunks : Nat)
    (env : String) (shouldExtract : Bool) (now : Nat) :
    UploadDirState × UploadMetadata :=
  match s.metadata with
  | some m => (s, m)
  | none =>
      let m : UploadMetadata :=
        { uploadId := uploadId, totalChunks := totalChunks, uploadedChunks := [],
          env := env, shouldExtract := shouldExtract, createdAt := now, updatedAt := now }
      ({ s with dirExists := true, metadata := some m }, m)

/-- The `uploadedChunks` update of `saveChunk`: JavaScript
`if (!includes(i)) push(i); sort((a, b) => a - b)`.  The numeric-ascending
rearrangement of a list of naturals is unique, so the engine's sort is
modelled by insertion sort without loss of fidelity. -/
def addUploadedChunk (l : List Nat) (chunkIndex : Nat) : List Nat :=
  if l.contains chunkIndex then l
  else List.insertionSort (· ≤ ·) (l ++ [chunkIndex])

/-- `saveChunk` of `chunkStorage.ts`: ensure the directory exists, write the
chunk file, then - only if `metadata.json` exists - add the index to
`uploadedChunks` unless already present (keeping the list ascending) and
refresh `updatedAt`.  Returns the `(success, chunkIndex)` payload.  There
is no bounds check of `chunkIndex` against `totalChunks` anywhere in the
function. -/
def saveChunk (s : UploadDirState) (chunkIndex : Nat) (data : List UInt8)
    (now : Nat) : UploadDirState × Bool × Nat :=
  let files := fun i => if i = chunkIndex then some data else s.chunkFiles i
  let metadata :=
    match s.metadata with
    | some m =>
        some { m with uploadedChunks := addUploadedChunk m.uploadedChunks chunkIndex,
                      updatedAt := now }
    | none => none
  ({ dirExists := true, metadata := metadata, chunkFiles := files }, true, chunkIndex)

theorem mem_addUploadedChunk (l : List Nat) (i j : Nat) :
    j ∈ addUploadedChunk l i ↔ j ∈ l ∨ j = i := by
  unfold addUploadedChunk
  by_cases hc : l.contains i
  · have hmem : i ∈ l := by simpa using hc
    simp only [hc, if_pos]
    constructor
    · exact Or.inl
    · rintro (hj | rfl)
      · exact hj
      · exact hmem
  · simp only [hc, Bool.false_eq_true, not_false_iff, if_neg]
    rw [(List.perm_insertionSort _ _).mem_iff, List.mem_append, List.mem_singleton]

theorem addUploadedChunk_nodup (l : List Nat) (i : Nat) (h : l.Nodup) :
    (addUploadedChunk l i).Nodup := by
  unfold addUploadedChunk
  by_cases hc : l.contains i
  · simp only [hc, if_pos]
    exact h
  · simp only [hc, Bool.false_eq_true, not_false_iff, if_neg]
    refine (List.perm_insertionSort _ _).nodup_iff.mpr ?_
    have hi : i ∉ l := by simpa using hc
    simpa [List.nodup_append] using ⟨h, hi⟩

theorem addUploadedChunk_pairwise (l : List Nat) (i : Nat)
    (h : l.Pairwise (· ≤ ·)) : (addUploadedChunk l i).Pairwise (· ≤ ·) := by
  unfold addUploadedChunk
  by_cases hc : l.contains i
  · simp only [hc, if_pos]
    exact h
  · simp only [hc, Bool.false_eq_true, not_false_iff, if_neg]
    exact List.sorted_insertionSort _ _

theorem addUploadedChunk_mem_eq (l : List Nat) (i : Nat)
    (h : i ∈ l) : addUploadedChunk l i = l := by
  unfold addUploadedChunk
  simp [List.elem_eq_mem, h]

/-- Result shape of `getUploadStatus`. -/
structure UploadStatusR where
  statusExists : Bool
  uploadedChunks : List Nat
  totalChunks : Option Nat := none
deriving DecidableEq, Repr

/-- `getUploadStatus` of `chunkStorage.ts`: without `metadata.json` report
`exists: false` with an empty chunk list. -/
def getUploadStatus (s : UploadDirState) : UploadStatusR :=
  match s.metadata with
  | none => { statusExists := false, uploadedChunks := [] }
  | some m =>
      { statusExists := true, uploadedChunks := m.uploadedChunks,
        totalChunks := some m.totalChunks }

/-- The chunk-reading loop of `mergeChunks`: read the chunk files for the
given indices in order, failing on the first missing file. -/
def readChunks (files : Nat → Option (List UInt8)) :
    List Nat → Except String (List (List UInt8))
  | [] => .ok []
  | i :: rest =>
      match files i with
      | none => .error ("Missing chunk " ++ toString i)
      | some d => (readChunks files rest).map (fun l => d :: l)

/-- `mergeChunks` of `chunkStorage.ts`: require `metadata.json`; require
`uploadedChunks.length === totalChunks`; then read `chunk_000000` through
`chunk_(totalChunks-1)` in ascending index order and concatenate them.
A `throw` in the source is an `Except.error` here. -/
def mergeChunks (uploadId : String) (s : UploadDirState) :
    Except String (List UInt8) :=
  match s.metadata with
  | none => .error ("Upload " ++ uploadId ++ " not found")
  | some m =>
      if m.uploadedChunks.length ≠ m.totalChunks then
        .error ("Incomplete upload: " ++ toString m.uploadedChunks.length ++ "/"
          ++ toString m.totalChunks ++ " chunks received")
      else
        (readChunks s.chunkFiles (List.range m.totalChunks)).map List.flatten

/-- `deleteUpload` of `chunkStorage.ts`: remove the whole task directory. -/
def deleteUpload (_s : UploadDirState) : UploadDirState := emptyUploadDir

/-- One operation on an upload task, as performed by the `init` and `chunk`
routes after validation. -/
inductive TaskOp where
  | opInit (uploadId : String) (totalChunks : Nat) (env : String)
      (shouldExtract : Bool) (now : Nat)
  | opChunk (chunkIndex : Nat) (data : List UInt8) (now : Nat)

/-- Apply one task operation to a task-directory state. -/
def applyOp (s : UploadDirState) : TaskOp → UploadDirState
  | .opInit uid n env ext now => (initUpload s uid n env ext now).1
  | .opChunk i d now => (saveChunk s i d now).1

/-- Apply a sequence of task operations. -/
def applyOps (s : UploadDirState) (ops : List TaskOp) : UploadDirState :=
  ops.foldl applyOp s

/-- The `uploadedChunks` list recorded in `metadata.json`, or `[]` when the
metadata file does not exist. -/
def chunksOf (s : UploadDirState) : List Nat :=
  match s.metadata with
  | some m => m.uploadedChunks
  | none => []

/-! ### Structural lemmas about `saveChunk` -/

theorem chunksOf_saveChunk (s : UploadDirState) (i : Nat) (d : List UInt8)
    (t : Nat) :
    chunksOf (saveChunk s i d t).1 =
      match s.metadata with
      | none => []
      | some m => addUploadedChunk m.uploadedChunks i := by
  cases h : s.metadata <;> simp [saveChunk, chunksOf, h]

theorem mem_chunksOf_saveChunk (s : UploadDirState) (i j : Nat)
    (d : List UInt8) (t : Nat) :
    j ∈ chunksOf (saveChunk s i d t).1 ↔
      j ∈ chunksOf s ∨ (s.metadata.isSome ∧ j = i) := by
  rw [chunksOf_saveChunk]
  cases h : s.metadata with
  | none => simp [chunksOf, h]
  | some m =>
      simp only [mem_addUploadedChunk, chunksOf, h, Option.isSome_some, true_and]

/-- `uploadedChunks` stays duplicate-free and ascending under `saveChunk`. -/
theorem chunksOf_saveChunk_wf (s : UploadDirState) (i : Nat) (d : List UInt8)
    (t : Nat)
    (hnd : (chunksOf s).Nodup) (hs : (chunksOf s).Pairwise (· ≤ ·)) :
    (chunksOf (saveChunk s i d t).1).Nodup ∧
      (chunksOf (saveChunk s i d t).1).Pairwise (· ≤ ·) := by
  rw [chunksOf_saveChunk]
  cases h : s.metadata with
  | none => simp
  | some m =>
      have hnd' : m.uploadedChunks.Nodup := by simpa [chunksOf, h] using hnd
      have hs' : m.uploadedChunks.Pairwise (· ≤ ·) := by simpa [chunksOf, h] using hs
      exact ⟨addUploadedChunk_nodup _ _ hnd', addUploadedChunk_pairwise _ _ hs'⟩

theorem chunksOf_initUpload (s : UploadDirState) (uid : String) (n : Nat)
    (env : String) (ext : Bool) (now : Nat) :
    chunksOf (initUpload s uid n env ext now).1 = chunksOf s := by
  cases h : s.metadata <;> simp [initUpload, chunksOf, h]

theorem chunksOf_applyOps_wf (ops : List TaskOp) (s : UploadDirState)
    (hnd : (chunksOf s).Nodup) (hs : (chunksOf s).Pairwise (· ≤ ·)) :
    (chunksOf (applyOps s ops)).Nodup ∧
      (chunksOf (applyOps s ops)).Pairwise (· ≤ ·) := by
  induction ops generalizing s with
  | nil => exact ⟨hnd, hs⟩
  | cons op rest ih =>
      cases op with
      | opInit uid n env ext now =>
          apply ih
          · rw [applyOp, chunksOf_initUpload]; exact hnd
          · rw [applyOp, chunksOf_initUpload]; exact hs
      | opChunk i d now =>
          have h := chunksOf_saveChunk_wf s i d now hnd hs
          exact ih _ h.1 h.2

/-! ## Request validation (`validation.ts`) -/

/-- JavaScript string falsiness for a nullable string: `null`/`undefined` and
the empty string are falsy. -/
def jsStrFalsy : Option String → Bool
  | none => true
  | some s => decide (s = "")

/-- The `{expected, actual, bufferSize}` payload of the 400 response built by
`verifyFileChecksum` on mismatch. -/
structure ChecksumError where
  expected : String
  actual : String
  bufferSize : Nat
deriving DecidableEq, Repr

/-- Result of `verifyFileChecksum`. -/
structure ChecksumOutcome where
  verified : Bool
  error : Option ChecksumError := none
deriving DecidableEq, Repr

/-- `verifyFileChecksum` of `validation.ts`, parametric in the SHA-256 hex
digest function (supplied by `node:crypto`, external to the repository):
skip verification when no checksum is provided; on mismatch produce the 400
error payload carrying expected and actual digests. -/
def verifyFileChecksum (sha256 : List UInt8 → String) (buffer : List UInt8)
    (expectedChecksum : Option String) : ChecksumOutcome :=
  if jsStrFalsy expectedChecksum then { verified := false }
  else
    let actual := sha256 buffer
    let expected := expectedChecksum.getD ""
    if actual ≠ expected then
      { verified := false,
        error := some { expected := expected, actual := actual,
                        bufferSize := buffer.length } }
    else { verified := true }

/-! ## Upload route handlers (chunk upload section of the routes file) -/

/-- Response of the `/upload/chunk` handler after validation succeeded. -/
inductive ChunkResp where
  | okResp (chunkIndex : Nat)
  | md5Fail (chunkIndex : Nat)
deriving DecidableEq, Repr

/-- HTTP status of a `/upload/chunk` response: `Response.json(result)` is
200, the MD5-mismatch body carries status 400. -/
def chunkRespStatus : ChunkResp → Nat
  | .okResp _ => 200
  | .md5Fail _ => 400

/-- JavaScript truthiness of a nullable string. -/
def jsStrTruthy (s : Option String) : Bool := ! jsStrFalsy s

/-- Core of `handleUploadChunk` after parameter extraction and request
validation: verify the optional `X-Chunk-MD5` header (parametric in the MD5
hex digest function), then `saveChunk` and answer 200 with the
`{success, chunkIndex}` payload.  No check relates `chunkIndex` to the
task metadata. -/
def handleUploadChunkCore (md5 : List UInt8 → String) (s : UploadDirState)
    (chunkIndex : Nat) (body : List UInt8) (expectedMd5 : Option String)
    (now : Nat) : UploadDirState × ChunkResp :=
  if jsStrTruthy expectedMd5 && decide (md5 body ≠ expectedMd5.getD "") then
    (s, .md5Fail chunkIndex)
  else
    let r := saveChunk s chunkIndex body now
    (r.1, .okResp r.2.2)

/-- Side effects of the save/extract hand-off performed by the complete
handler (`saveFile` / `extractAndDeploy` in `deployment.ts`). -/
structure DeployEffects where
  savedFile : Option (String × List UInt8) := none
  extractedArchive : Option (List UInt8) := none
deriving DecidableEq, Repr

/-- Response of the `/upload/complete` handler after validation. -/
inductive CompleteResp where
  | success (fileName : String) (fileSize : Nat) (checksumVerified : Bool)
      (extracted : Bool) (uploadPath : String)
  | checksumFail (e : ChecksumError)
  | completeFail (details : String)
deriving DecidableEq, Repr

/-- HTTP status of a `/upload/complete` response. -/
def completeRespStatus : CompleteResp → Nat
  | .success _ _ _ _ _ => 200
  | .checksumFail _ => 400
  | .completeFail _ => 500

/-- The `body.checksum || null` normalisation of the complete handler. -/
def jsOrNullStr (a : Option String) : Option String :=
  if jsStrFalsy a then none else a

/-- Core of `handleUploadComplete` after validation: merge the chunks (a
thrown merge error is caught and becomes the 500 response), verify the
whole-file checksum - on mismatch delete the upload task and return the
400 payload - then extract or save, delete the task, and answer 200. -/
def handleUploadComplete (sha256 : List UInt8 → String) (s : UploadDirState)
    (uploadId fileName : String) (checksum : Option String)
    (shouldExtract : Bool) (uploadPath : String) :
    UploadDirState × DeployEffects × CompleteResp :=
  match mergeChunks uploadId s with
  | .error e => (s, {}, .completeFail e)
  | .ok buffer =>
      let cr := verifyFileChecksum sha256 buffer (jsOrNullStr checksum)
      match cr.error with
      | some err => (deleteUpload s, {}, .checksumFail err)
      | none =>
          let effects : DeployEffects :=
            if shouldExtract then { extractedArchive := some buffer }
            else { savedFile := some (fileName, buffer) }
          (deleteUpload s, effects,
            .success fileName buffer.length cr.verified shouldExtract uploadPath)

theorem chunksOf_saveChunk_nodup (s : UploadDirState) (i : Nat)
    (d : List UInt8) (t : Nat) (hnd : (chunksOf s).Nodup) :
    (chunksOf (saveChunk s i d t).1).Nodup := by
  rw [chunksOf_saveChunk]
  cases h : s.metadata with
  | none => simp
  | some m =>
      have hnd' : m.uploadedChunks.Nodup := by simpa [chunksOf, h] using hnd
      exact addUploadedChunk_nodup _ _ hnd'

theorem mergeChunks_congr (u : String) (s s₂ : UploadDirState)
    (h : s.metadata.map (fun m => (m.uploadedChunks, m.totalChunks)) =
         s₂.metadata.map (fun m => (m.uploadedChunks, m.totalChunks)))
    (hf : s.chunkFiles = s₂.chunkFiles) :
    mergeChunks u s = mergeChunks u s₂ := by
  cases hm : s.metadata with
  | none =>
      cases hm2 : s₂.metadata with
      | none => simp [mergeChunks, hm, hm2]
      | some m₂ => rw [hm, hm2] at h; simp at h
  | some m =>
      cases hm2 : s₂.metadata with
      | none => rw [hm, hm2] at h; simp at h
      | some m₂ =>
          rw [hm, hm2] at h
          simp only [Option.map, Option.some.injEq, Prod.mk.injEq] at h
          simp [mergeChunks, hm, hm2, h.1, h.2, hf]

/-! ## Claim theorems about the chunk store -/

/-- C1 (counterexample): starting from a fresh task directory, `init` with
`totalChunks = 3` followed by a chunk write with index 5 leaves
`uploadedChunks = [5]`: the recorded index lies outside `[0, totalChunks)`,
so the claimed invariant `uploadedChunks ⊆ [0, totalChunks)` fails and an
out-of-range chunk write does add its index. -/
theorem C1_counterexample :
    (applyOps emptyUploadDir
        [.opInit "u" 3 "test" false 0, .opChunk 5 [1] 1]).metadata.map
          (fun m => (m.totalChunks, m.uploadedChunks)) = some (3, [5]) ∧
    ¬ (∀ j ∈ chunksOf (applyOps emptyUploadDir
        [.opInit "u" 3 "test" false 0, .opChunk 5 [1] 1]), j < 3) := by
  constructor
  · decide
  · decide

/-- C1 (amended): for every upload task, after any sequence of init and chunk
operations starting from a fresh directory, `uploadedChunks` contains no
duplicates and is sorted ascending; however `saveChunk` performs no bounds
check, so a chunk write with any index - inside or outside
`[0, totalChunks)` - adds that index to `uploadedChunks` whenever the task
metadata exists. -/
theorem C1_amended (ops : List TaskOp) (s : UploadDirState) (i : Nat)
    (d : List UInt8) (t : Nat) (hmeta : s.metadata.isSome = true) :
    ((chunksOf (applyOps emptyUploadDir ops)).Nodup ∧
      (chunksOf (applyOps emptyUploadDir ops)).Pairwise (· ≤ ·)) ∧
    i ∈ chunksOf (saveChunk s i d t).1 := by
  refine ⟨chunksOf_applyOps_wf ops emptyUploadDir (by simp [chunksOf, emptyUploadDir])
    (by simp [chunksOf, emptyUploadDir]), ?_⟩
  rw [mem_chunksOf_saveChunk]
  exact Or.inr ⟨hmeta, rfl⟩

/-- Witness for C1 (amended) at a concrete input: two writes (indices 1 and 0)
after an init, and an out-of-range write of index 7 against a task with
metadata present. -/
theorem C1_witness :
    ((applyOps emptyUploadDir [.opInit "u" 2 "test" false 0]).metadata.isSome
        = true) ∧
    (((chunksOf (applyOps emptyUploadDir
        [.opInit "u" 2 "test" false 0, .opChunk 1 [9] 1,
         .opChunk 0 [8] 2])).Nodup ∧
      (chunksOf (applyOps emptyUploadDir
        [.opInit "u" 2 "test" false 0, .opChunk 1 [9] 1,
         .opChunk 0 [8] 2])).Pairwise (· ≤ ·)) ∧
    7 ∈ chunksOf (saveChunk
        (applyOps emptyUploadDir [.opInit "u" 2 "test" false 0]) 7 [3] 3).1) :=
  ⟨by decide,
   C1_amended [.opInit "u" 2 "test" false 0, .opChunk 1 [9] 1, .opChunk 0 [8] 2]
     (applyOps emptyUploadDir [.opInit "u" 2 "test" false 0]) 7 [3] 3 (by decide)⟩

/-- C8: writing the same chunk index twice with the same data is idempotent:
`uploadedChunks` after the second write equals the list after the first
write and, when metadata exists and started duplicate-free, contains the
index exactly once; the chunk file holds the written data; the merge result
is unchanged by the second write. -/
theorem C8_duplicate_chunk_write_idempotent (u : String) (s : UploadDirState)
    (i : Nat) (d : List UInt8) (t₁ t₂ : Nat)
    (hnd : (chunksOf s).Nodup) :
    chunksOf (saveChunk (saveChunk s i d t₁).1 i d t₂).1
        = chunksOf (saveChunk s i d t₁).1 ∧
    (saveChunk (saveChunk s i d t₁).1 i d t₂).1.chunkFiles
        = (saveChunk s i d t₁).1.chunkFiles ∧
    (saveChunk s i d t₁).1.chunkFiles i = some d ∧
    mergeChunks u (saveChunk (saveChunk s i d t₁).1 i d t₂).1
        = mergeChunks u (saveChunk s i d t₁).1 ∧
    (s.metadata.isSome = true →
      (chunksOf (saveChunk s i d t₁).1).count i = 1) := by
  have hfiles : (saveChunk (saveChunk s i d t₁).1 i d t₂).1.chunkFiles
      = (saveChunk s i d t₁).1.chunkFiles := by
    funext j
    by_cases hj : j = i <;> simp [saveChunk, hj]
  have hchunks : chunksOf (saveChunk (saveChunk s i d t₁).1 i d t₂).1
      = chunksOf (saveChunk s i d t₁).1 := by
    rw [chunksOf_saveChunk]
    cases h : s.metadata with
    | none => simp [saveChunk, h, chunksOf]
    | some m =>
        have h2 : (saveChunk s i d t₁).1.metadata =
            some { m with uploadedChunks := addUploadedChunk m.uploadedChunks i,
                          updatedAt := t₁ } := by
          simp [saveChunk, h]
        rw [h2]
        have hi : i ∈ addUploadedChunk m.uploadedChunks i :=
          (mem_addUploadedChunk _ _ _).mpr (Or.inr rfl)
        simp only [chunksOf, h2]
        exact addUploadedChunk_mem_eq _ _ hi
  refine ⟨hchunks, hfiles, by simp [saveChunk], ?_, ?_⟩
  · apply mergeChunks_congr
    · cases h : s.metadata with
      | none => simp [saveChunk, h]
      | some m =>
          have hi : i ∈ addUploadedChunk m.uploadedChunks i :=
            (mem_addUploadedChunk _ _ _).mpr (Or.inr rfl)
          simp [saveChunk, h, addUploadedChunk_mem_eq _ _ hi]
    · exact hfiles
  · intro hmeta
    have hi : i ∈ chunksOf (saveChunk s i d t₁).1 := by
      rw [mem_chunksOf_saveChunk]
      exact Or.inr ⟨hmeta, rfl⟩
    exact List.count_eq_one_of_mem (chunksOf_saveChunk_nodup s i d t₁ hnd) hi

/-- Witness for C8 at a concrete input: a fresh two-chunk task, chunk 0
written twice with the same byte. -/
theorem C8_witness :
    ((chunksOf (applyOps emptyUploadDir [.opInit "u" 2 "t" false 0])).Nodup) ∧
    chunksOf (saveChunk (saveChunk
        (applyOps emptyUploadDir [.opInit "u" 2 "t" false 0]) 0 [5] 1).1 0 [5] 2).1
      = chunksOf (saveChunk
        (applyOps emptyUploadDir [.opInit "u" 2 "t" false 0]) 0 [5] 1).1 ∧
    (chunksOf (saveChunk
        (applyOps emptyUploadDir [.opInit "u" 2 "t" false 0]) 0 [5] 1).1).count 0
      = 1 :=
  ⟨by decide,
   (C8_duplicate_chunk_write_idempotent "u"
      (applyOps emptyUploadDir [.opInit "u" 2 "t" false 0]) 0 [5] 1 2
      (by decide)).1,
   (C8_duplicate_chunk_write_idempotent "u"
      (applyOps emptyUploadDir [.opInit "u" 2 "t" false 0]) 0 [5] 1 2
      (by decide)).2.2.2.2 (by decide)⟩

/-- C10: a chunk write for an uploadId with no metadata.json still succeeds:
the directory is recreated, the chunk file written, the handler returns the
200 `{success, chunkIndex}` payload, no metadata is created, a subsequent
status query reports `exists: false`, and a subsequent complete fails with
the 500 "Upload not found" error. -/
theorem C10_chunk_write_without_metadata (md5 sha256 : List UInt8 → String)
    (s : UploadDirState) (i : Nat) (body : List UInt8) (now : Nat)
    (uploadId fileName : String) (checksum : Option String)
    (shouldExtract : Bool) (uploadPath : String)
    (h : s.metadata = none) :
    (handleUploadChunkCore md5 s i body none now).2 = .okResp i ∧
    chunkRespStatus (handleUploadChunkCore md5 s i body none now).2 = 200 ∧
    (handleUploadChunkCore md5 s i body none now).1.dirExists = true ∧
    (handleUploadChunkCore md5 s i body none now).1.chunkFiles i = some body ∧
    (handleUploadChunkCore md5 s i body none now).1.metadata = none ∧
    getUploadStatus (handleUploadChunkCore md5 s i body none now).1 =
      { statusExists := false, uploadedChunks := [] } ∧
    (handleUploadComplete sha256 (handleUploadChunkCore md5 s i body none now).1
        uploadId fileName checksum shouldExtract uploadPath).2.2 =
      .completeFail ("Upload " ++ uploadId ++ " not found") ∧
    completeRespStatus (handleUploadComplete sha256
        (handleUploadChunkCore md5 s i body none now).1
        uploadId fileName checksum shouldExtract uploadPath).2.2 = 500 := by
  simp [handleUploadChunkCore, jsStrTruthy, jsStrFalsy, saveChunk, h,
    getUploadStatus, handleUploadComplete, mergeChunks, chunkRespStatus,
    completeRespStatus]

/-- Witness for C10 at a concrete input. -/
theorem C10_witness :
    (emptyUploadDir.metadata = none) ∧
    (handleUploadChunkCore (fun _ => "m") emptyUploadDir 2 [7] none 0).2
      = .okResp 2 ∧
    getUploadStatus (handleUploadChunkCore (fun _ => "m") emptyUploadDir
        2 [7] none 0).1 = { statusExists := false, uploadedChunks := [] } ∧
    (handleUploadComplete (fun _ => "s") (handleUploadChunkCore (fun _ => "m")
        emptyUploadDir 2 [7] none 0).1 "up1" "f.zip" none false "/srv").2.2 =
      .completeFail ("Upload " ++ "up1" ++ " not found") :=
  ⟨rfl,
   (C10_chunk_write_without_metadata (fun _ => "m") (fun _ => "s")
      emptyUploadDir 2 [7] 0 "up1" "f.zip" none false "/srv" rfl).1,
   (C10_chunk_write_without_metadata (fun _ => "m") (fun _ => "s")
      emptyUploadDir 2 [7] 0 "up1" "f.zip" none false "/srv" rfl).2.2.2.2.2.1,
   (C10_chunk_write_without_metadata (fun _ => "m") (fun _ => "s")
      emptyUploadDir 2 [7] 0 "up1" "f.zip" none false "/srv" rfl).2.2.2.2.2.2.1⟩

/-- C7: when a checksum is supplied to complete and the SHA-256 of the merged
file differs from it, the handler deletes the whole task directory and
returns the 400 response carrying expected and actual digests, and the file
is neither saved nor extracted. -/
theorem C7_checksum_mismatch_destroys_task (sha256 : List UInt8 → String)
    (s : UploadDirState) (uploadId fileName : String) (c : String)
    (shouldExtract : Bool) (uploadPath : String) (buffer : List UInt8)
    (hmerge : mergeChunks uploadId s = .ok buffer)
    (hc : c ≠ "")
    (hne : sha256 buffer ≠ c) :
    handleUploadComplete sha256 s uploadId fileName (some c) shouldExtract
        uploadPath =
      (emptyUploadDir, {},
        .checksumFail { expected := c, actual := sha256 buffer,
                        bufferSize := buffer.length }) ∧
    completeRespStatus (handleUploadComplete sha256 s uploadId fileName (some c)
        shouldExtract uploadPath).2.2 = 400 ∧
    (handleUploadComplete sha256 s uploadId fileName (some c) shouldExtract
        uploadPath).2.1.savedFile = none ∧
    (handleUploadComplete sha256 s uploadId fileName (some c) shouldExtract
        uploadPath).2.1.extractedArchive = none ∧
    (handleUploadComplete sha256 s uploadId fileName (some c) shouldExtract
        uploadPath).1.dirExists = false ∧
    (handleUploadComplete sha256 s uploadId fileName (some c) shouldExtract
        uploadPath).1.metadata = none ∧
    ∀ j, (handleUploadComplete sha256 s uploadId fileName (some c) shouldExtract
        uploadPath).1.chunkFiles j = none := by
  have hmain : handleUploadComplete sha256 s uploadId fileName (some c)
      shouldExtract uploadPath =
      (emptyUploadDir, {},
        .checksumFail { expected := c, actual := sha256 buffer,
                        bufferSize := buffer.length }) := by
    unfold handleUploadComplete
    rw [hmerge]
    simp [verifyFileChecksum, jsOrNullStr, jsStrFalsy, hc, hne, deleteUpload]
  refine ⟨hmain, ?_, ?_, ?_, ?_, ?_, ?_⟩ <;>
    simp [hmain, completeRespStatus, emptyUploadDir]

/-- Witness for C7 at a concrete input: a complete one-chunk task, an
artificial digest function, and a non-matching supplied checksum. -/
theorem C7_witness :
    (mergeChunks "u" (applyOps emptyUploadDir
        [.opInit "u" 1 "t" false 0, .opChunk 0 [42] 1]) = .ok [42]) ∧
    handleUploadComplete (fun _ => "aa") (applyOps emptyUploadDir
        [.opInit "u" 1 "t" false 0, .opChunk 0 [42] 1]) "u" "f" (some "bb")
        false "/srv" =
      (emptyUploadDir, {},
        .checksumFail { expected := "bb", actual := "aa", bufferSize := 1 }) :=
  ⟨rfl,
   (C7_checksum_mismatch_destroys_task (fun _ => "aa")
      (applyOps emptyUploadDir [.opInit "u" 1 "t" false 0, .opChunk 0 [42] 1])
      "u" "f" "bb" false "/srv" [42] rfl (by decide) (by decide)).1⟩

/-! ## Auth validator (`validateRequest` in `validation.ts`) and the
status-code heuristic shared by the protected handlers -/

/-- Environment entry of the resolved server configuration (the fields the
validator and deploy handlers read). -/
structure EnvironmentConfig where
  token : Option String := none
  uploadPath : String := ""
  deployCommand : String := ""
deriving DecidableEq, Repr

/-- Resolved server configuration: optional top-level token and the named
environments. -/
structure ServerConfig where
  token : Option String := none
  environments : List (String × EnvironmentConfig) := []
deriving DecidableEq, Repr

/-- Result shape of `validateRequest`. -/
structure ValidationResult where
  valid : Bool
  error : Option String := none
  envConfig : Option EnvironmentConfig := none
deriving DecidableEq, Repr

/-- The exact error string produced when neither an environment-level nor a
top-level token is configured. -/
def noTokenError (env : String) : String :=
  "No token configured for environment '" ++ env ++
    "' (neither environment-level nor outer-level token found)"

/-- `validateRequest` of `validation.ts`: missing env, unknown env, no
configured token, missing authorization, wrong token, in that order. -/
def validateRequest (env : Option String) (authToken : Option String)
    (config : ServerConfig) : ValidationResult :=
  if jsStrFalsy env then
    { valid := false, error := some "Missing environment parameter" }
  else
    let envName := env.getD ""
    match config.environments.lookup envName with
    | none =>
        { valid := false, error := some ("Unknown environment: " ++ envName) }
    | some envConfig =>
        let validToken :=
          if jsStrFalsy envConfig.token then config.token else envConfig.token
        if jsStrFalsy validToken then
          { valid := false, error := some (noTokenError envName) }
        else if jsStrFalsy authToken then
          { valid := false, error := some "Missing authorization token" }
        else if authToken ≠ validToken then
          { valid := false, error := some "Invalid token" }
        else { valid := true, envConfig := some envConfig }

/-- JavaScript `String.prototype.includes`: substring containment. -/
def strIncludes (s pat : String) : Bool := decide (pat.data <:+: s.data)

/-- The status-code mapping `validation.error?.includes("token") ? 403 : 400`
applied by every protected handler to an invalid validation result. -/
def validationStatus (v : ValidationResult) : Nat :=
  match v.error with
  | some e => if strIncludes e "token" then 403 else 400
  | none => 400

theorem noTokenError_includes_token (env : String) :
    strIncludes (noTokenError env) "token" = true := by
  have h1 : "token".data <:+: "No token configured for environment '".data := by
    decide
  have h2 : ("No token configured for environment '").data <+:
      (noTokenError env).data := by
    simp only [noTokenError, String.data_append, List.append_assoc]
    exact List.prefix_append _ _
  simpa [strIncludes] using h1.trans h2.isInfix

/-- C2 (counterexample): a configuration whose environment has no token and
whose top level has no token.  The validator reports invalid with the
"No token configured" error, but because that error string contains
"token", the handlers' status heuristic yields 403 - contradicting the
claim that such requests get a 400-class "no token configured" response
rather than a 403. -/
theorem C2_counterexample :
    (validateRequest (some "prod") (some "x")
        { token := none, environments := [("prod", {})] }).valid = false ∧
    (validateRequest (some "prod") (some "x")
        { token := none, environments := [("prod", {})] }).error =
      some (noTokenError "prod") ∧
    validationStatus (validateRequest (some "prod") (some "x")
        { token := none, environments := [("prod", {})] }) = 403 := by
  refine ⟨rfl, rfl, ?_⟩
  decide

/-- C2 (amended): when neither an environment-level nor a top-level token is
configured for the requested (known) environment, the validator reports
invalid with the "No token configured" error; since that error contains
the substring "token", every protected handler maps it to HTTP 403. -/
theorem C2_amended (config : ServerConfig) (envName : String)
    (ec : EnvironmentConfig) (authToken : Option String)
    (henv : envName ≠ "")
    (hlookup : config.environments.lookup envName = some ec)
    (het : jsStrFalsy ec.token = true)
    (htt : jsStrFalsy config.token = true) :
    (validateRequest (some envName) authToken config).valid = false ∧
    (validateRequest (some envName) authToken config).error =
      some (noTokenError envName) ∧
    validationStatus (validateRequest (some envName) authToken config) = 403 := by
  have hval : validateRequest (some envName) authToken config =
      { valid := false, error := some (noTokenError envName) } := by
    simp only [jsStrFalsy] at het htt
    unfold validateRequest
    simp [jsStrFalsy, henv, hlookup, het, htt]
  refine ⟨by rw [hval], by rw [hval], ?_⟩
  rw [hval]
  simp [validationStatus, noTokenError_includes_token]

/-- Witness for C2 (amended) at a concrete configuration. -/
theorem C2_witness :
    ("prod" ≠ "") ∧
    ([("prod", ({} : EnvironmentConfig))].lookup "prod" = some {}) ∧
    (jsStrFalsy ({} : EnvironmentConfig).token = true) ∧
    (jsStrFalsy (none : Option String) = true) ∧
    validationStatus (validateRequest (some "prod") none
        { token := none, environments := [("prod", {})] }) = 403 :=
  ⟨by decide, by decide, by decide, by decide,
   (C2_amended { token := none, environments := [("prod", {})] } "prod" {}
      none (by decide) (by decide) (by decide) (by decide)).2.2⟩

/-! ## Deploy state store (`deployState.ts`)

Timestamps (`Date`) are integer milliseconds.  Event payloads (`data: any`)
are instantiated at the concrete payload type `SseData` carrying the fields
the handlers construct. -/

/-- Event payloads occurring in the deploy event stream: `output` data
`{type, data}`, the `done` payload, the `error` payload with an exit code,
and the "No deployment in progress" error payload of the resume path. -/
inductive SseData where
  | outDat (streamType : String) (text : String)
  | doneDat (success : Bool) (exitCode : Int)
  | errDat (exitCode : Int)
  | noDeployDat
deriving DecidableEq, Repr

/-- Mirror of the `OutputEntry` interface. -/
structure OutputEntry where
  id : Nat
  event : String
  data : SseData
deriving DecidableEq, Repr

/-- Mirror of the `DeployResult` interface. -/
structure DeployResult where
  success : Bool
  startTime : Int
  endTime : Int
  exitCode : Int
  message : Option String := none
deriving DecidableEq, Repr

/-- Mirror of the `DeployState` interface. -/
structure DeployState where
  running : Bool := false
  startTime : Option Int := none
  outputBuffer : List OutputEntry := []
  nextId : Nat := 1
  lastResult : Option DeployResult := none
deriving DecidableEq, Repr

/-- The `deployStates` map with the get-or-create default of `getState`. -/
def DeployStates := String → DeployState

/-- `getState`. -/
def getState (ss : DeployStates) (env : String) : DeployState := ss env

/-- Functional update of one environment's state. -/
def setState (ss : DeployStates) (env : String) (st : DeployState) :
    DeployStates :=
  fun e => if e = env then st else ss e

/-- `startDeploy`: mark running, record the start time, clear the buffer,
reset `nextId` to 1, and clear `lastResult`. -/
def startDeploy (ss : DeployStates) (env : String) (now : Int) : DeployStates :=
  setState ss env
    { running := true, startTime := some now, outputBuffer := [],
      nextId := 1, lastResult := none }

/-- `addOutput`: append `{id: nextId++, event, data}` to the buffer and
return the id. -/
def addOutput (ss : DeployStates) (env : String) (event : String)
    (data : SseData) : DeployStates × Nat :=
  let st := getState ss env
  let id := st.nextId
  (setState ss env
    { st with nextId := id + 1,
              outputBuffer := st.outputBuffer ++ [⟨id, event, data⟩] }, id)

/-- `finishDeploy`: clear `running`, store `lastResult` (callers omit
`endTime`, so it is `new Date()` = `now`), and clear the output buffer. -/
def finishDeploy (ss : DeployStates) (env : String) (success : Bool)
    (exitCode : Int) (now : Int) : DeployStates :=
  let st := getState ss env
  setState ss env
    { st with running := false,
              lastResult := some
                { success := success, startTime := st.startTime.getD now,
                  endTime := now, exitCode := exitCode },
              outputBuffer := [] }

/-- `getOutputsFrom`: all buffered entries when `fromId = 0`, else the
entries with `id > fromId`. -/
def getOutputsFrom (ss : DeployStates) (env : String) (fromId : Nat) :
    List OutputEntry :=
  let st := getState ss env
  if fromId = 0 then st.outputBuffer
  else st.outputBuffer.filter (fun e => decide (fromId < e.id))

/-- `isDeploying`. -/
def isDeploying (ss : DeployStates) (env : String) : Bool :=
  (getState ss env).running

/-- `getLatestOutputId`: `nextId - 1`. -/
def getLatestOutputId (ss : DeployStates) (env : String) : Nat :=
  (getState ss env).nextId - 1

/-- Rejection reasons of `shouldRejectNewDeploy`; the cooldown reason carries
the remaining milliseconds that the source interpolates into its string. -/
inductive RejectReason where
  | inProgress
  | cooldown (remainingMs : Int)
deriving DecidableEq, Repr

/-- `shouldRejectNewDeploy`: reject while running; otherwise reject when less
than 5000 ms have elapsed since `lastResult.endTime`. -/
def shouldRejectNewDeploy (ss : DeployStates) (env : String) (now : Int) :
    Option RejectReason :=
  let st := getState ss env
  if st.running then some .inProgress
  else
    match st.lastResult with
    | some lr =>
        let elapsed := now - lr.endTime
        if elapsed < 5000 then some (.cooldown (5000 - elapsed)) else none
    | none => none

/-! ## Deploy request dispatch (`handleDeploy`, stream mode) -/

/-- Outcome of the stream-mode dispatch of `handleDeploy` after validation:
a request with a `Last-Event-ID` header goes to the resume handler with no
gating; otherwise the gate `shouldRejectNewDeploy` yields a 409 or the
fresh-stream handler starts. -/
inductive DeployDispatch where
  | resume (fromId : Nat)
  | rejected (reason : RejectReason)
  | startNew
deriving DecidableEq, Repr

/-- The stream-mode dispatch of `handleDeploy` (the header value is already
parsed; `null` is `none`). -/
def deployStreamDispatch (ss : DeployStates) (env : String) (now : Int)
    (lastEventId : Option Nat) : DeployDispatch :=
  match lastEventId with
  | some fromId => .resume fromId
  | none =>
      match shouldRejectNewDeploy ss env now with
      | some reason => .rejected reason
      | none => .startNew

/-- HTTP status of the dispatch outcome: a rejection is answered with
`Response.json({error}, {status: 409})`, the other outcomes open a 200
`text/event-stream` response. -/
def deployDispatchStatus : DeployDispatch → Nat
  | .rejected _ => 409
  | _ => 200

/-- C4: a new streamed deploy without `Last-Event-ID` for environment `e` is
rejected with 409 if and only if a deploy is running for `e` or less than
5 seconds have elapsed since `lastResult.endTime`; in particular, for a
state whose last deploy ended at time 0, a second deploy at 4999 ms is
rejected and one at 5001 ms is accepted. -/
theorem C4_cooldown_gate :
    (∀ (ss : DeployStates) (env : String) (now : Int),
      deployDispatchStatus (deployStreamDispatch ss env now none) = 409 ↔
        ((getState ss env).running = true ∨
          ∃ lr, (getState ss env).lastResult = some lr ∧
            now - lr.endTime < 5000)) ∧
    deployDispatchStatus (deployStreamDispatch
      (setState (fun _ => {}) "e"
        { lastResult := some { success := true, startTime := 0, endTime := 0,
                               exitCode := 0 } })
      "e" 4999 none) = 409 ∧
    deployDispatchStatus (deployStreamDispatch
      (setState (fun _ => {}) "e"
        { lastResult := some { success := true, startTime := 0, endTime := 0,
                               exitCode := 0 } })
      "e" 5001 none) = 200 := by
  refine ⟨?_, by decide, by decide⟩
  intro ss env now
  unfold deployStreamDispatch shouldRejectNewDeploy
  by_cases hr : (getState ss env).running
  · simp [hr, deployDispatchStatus]
  · simp only [hr, Bool.false_eq_true, not_false_iff, if_neg]
    cases hlr : (getState ss env).lastResult with
    | none => simp [deployDispatchStatus, Bool.false_eq_true, hr]
    | some lr =>
        by_cases hcd : now - lr.endTime < 5000
        · simp only [hcd, if_pos, deployDispatchStatus]
          constructor
          · intro _; exact Or.inr ⟨lr, rfl, hcd⟩
          · intro _; trivial
        · simp only [hcd, if_neg, not_false_iff, deployDispatchStatus]
          constructor
          · intro h; exact absurd h (by decide)
          · rintro (h | ⟨lr2, hlr2, hcd2⟩)
            · exact h.elim
            · rw [Option.some.injEq] at hlr2
              subst hlr2
              exact absurd hcd2 hcd

/-! ## Interleaving of the fresh-stream handler and the resume poller

The fresh-stream handler (`handleDeployStream`) runs the deploy command and,
for every output fragment, synchronously appends to the buffer and emits;
on process exit it synchronously appends the terminal event, emits it, and
calls `finishDeploy` - all inside one JavaScript event-loop turn, so no
other task can observe a state between those operations.  The resume
handler (`handleDeployResume`) replays the buffer, then polls it every
100 ms until `isDeploying` turns false, then drains once more and closes.
Interleaving points are exactly the `await`s: a schedule is a sequence of
atomic steps, each either the next deploy-side action or one wake-up of the
sleeping poller. -/

/-- One atomic deploy-side action of `handleDeployStream`: an output
fragment (`addOutput` + emit), or process exit (append terminal event,
emit, `finishDeploy` - one synchronous block). -/
inductive DeployAction where
  | emitOutput (streamType : String) (text : String)
  | finishRun (exitCode : Int) (endTime : Int)
deriving DecidableEq, Repr

/-- Effect of one deploy-side action on the state store. -/
def deployDo (ss : DeployStates) (env : String) : DeployAction → DeployStates
  | .emitOutput ty text => (addOutput ss env "output" (.outDat ty text)).1
  | .finishRun code endTime =>
      if code = 0 then
        finishDeploy (addOutput ss env "done" (.doneDat true code)).1 env
          true code endTime
      else
        finishDeploy (addOutput ss env "error" (.errDat code)).1 env
          false code endTime

/-- Program counter of the resume handler: parked in the 100 ms sleep, or
past its final drain (stream closed). -/
inductive ResumePC where
  | sleeping
  | finished
deriving DecidableEq, Repr

/-- State of one resume request: the `Last-Event-ID` it carried, the `lastId`
cursor of the polling loop, the SSE frames emitted so far (id when the
frame has an `id:` line, event name, payload), and the program counter. -/
structure ResumeRun where
  fromId : Nat
  lastId : Nat
  emitted : List (Option Nat × String × SseData)
  pc : ResumePC
deriving DecidableEq, Repr

/-- SSE frames for a list of buffered entries. -/
def emitEntries (l : List OutputEntry) : List (Option Nat × String × SseData) :=
  l.map (fun e => (some e.id, e.event, e.data))

/-- The synchronous prefix of `handleDeployResume` up to its first `await`:
if a deploy is running, replay `getOutputsFrom(fromId)`, set the cursor to
`getLatestOutputId`, and enter the polling loop (the loop condition holds,
so the handler parks in the sleep); otherwise synthesise the single
terminal event from `lastResult` (no `id:` line) and close. -/
def resumeAttach (ss : DeployStates) (env : String) (fromId : Nat) :
    ResumeRun :=
  if isDeploying ss env then
    { fromId := fromId,
      lastId := getLatestOutputId ss env,
      emitted := emitEntries (getOutputsFrom ss env fromId),
      pc := .sleeping }
  else
    match (getState ss env).lastResult with
    | some lr =>
        if lr.success then
          { fromId := fromId, lastId := 0,
            emitted := [(none, "done", .doneDat true lr.exitCode)],
            pc := .finished }
        else
          { fromId := fromId, lastId := 0,
            emitted := [(none, "error", .errDat lr.exitCode)],
            pc := .finished }
    | none =>
        { fromId := fromId, lastId := 0,
          emitted := [(none, "error", .noDeployDat)], pc := .finished }

/-- One wake-up of the polling loop: drain `getOutputsFrom(lastId)`,
advancing the cursor to each drained id; re-check the loop condition; when
the deploy is no longer running, perform the final drain and close.  All of
this is one synchronous block between two `await`s. -/
def resumeWake (ss : DeployStates) (env : String) (r : ResumeRun) :
    ResumeRun :=
  match r.pc with
  | .finished => r
  | .sleeping =>
      let newOutputs := getOutputsFrom ss env r.lastId
      let lastId := newOutputs.foldl (fun _ e => e.id) r.lastId
      let emitted := r.emitted ++ emitEntries newOutputs
      if isDeploying ss env then
        { r with lastId := lastId, emitted := emitted }
      else
        { r with lastId := lastId,
                 emitted := emitted ++ emitEntries (getOutputsFrom ss env lastId),
                 pc := .finished }

/-- Joint state: the deploy-state store, the deploy side's remaining
actions, and one attached resume request. -/
structure Sys where
  ss : DeployStates
  pending : List DeployAction
  resume : ResumeRun

/-- Scheduler choice for one atomic step. -/
inductive SchedStep where
  | deployStep
  | wakeStep
deriving DecidableEq, Repr

/-- One interleaved step. -/
def sysStep (env : String) (σ : Sys) : SchedStep → Sys
  | .deployStep =>
      match σ.pending with
      | [] => σ
      | a :: rest => { σ with ss := deployDo σ.ss env a, pending := rest }
  | .wakeStep => { σ with resume := resumeWake σ.ss env σ.resume }

/-- Run a whole schedule. -/
def sysRun (env : String) (σ : Sys) (sched : List SchedStep) : Sys :=
  sched.foldl (sysStep env) σ

/-! ### Basic state-store lemmas -/

theorem getState_setState (ss : DeployStates) (env : String)
    (st : DeployState) : getState (setState ss env st) env = st := by
  simp [getState, setState]

theorem getState_addOutput (ss : DeployStates) (env : String) (ev : String)
    (dat : SseData) :
    getState (addOutput ss env ev dat).1 env =
      { getState ss env with
          nextId := (getState ss env).nextId + 1,
          outputBuffer := (getState ss env).outputBuffer ++
            [⟨(getState ss env).nextId, ev, dat⟩] } := by
  simp [addOutput, getState_setState]

theorem getState_finishDeploy (ss : DeployStates) (env : String)
    (success : Bool) (code endTime : Int) :
    getState (finishDeploy ss env success code endTime) env =
      { getState ss env with
          running := false,
          lastResult := some
            { success := success,
              startTime := (getState ss env).startTime.getD endTime,
              endTime := endTime, exitCode := code },
          outputBuffer := [] } := by
  simp [finishDeploy, getState_setState]

theorem mem_getOutputsFrom (ss : DeployStates) (env : String) (f : Nat)
    (e : OutputEntry) :
    e ∈ getOutputsFrom ss env f ↔
      e ∈ (getState ss env).outputBuffer ∧ (f = 0 ∨ f < e.id) := by
  unfold getOutputsFrom
  by_cases hf : f = 0 <;> simp [hf]

theorem mem_getOutputsFrom_buffer (ss : DeployStates) (env : String) (f : Nat)
    (e : OutputEntry) (h : e ∈ getOutputsFrom ss env f) :
    e ∈ (getState ss env).outputBuffer :=
  ((mem_getOutputsFrom ss env f e).mp h).1

theorem getOutputsFrom_gt (ss : DeployStates) (env : String) (f : Nat)
    (hpos : ∀ e ∈ (getState ss env).outputBuffer, 1 ≤ e.id) :
    ∀ e ∈ getOutputsFrom ss env f, f < e.id := by
  intro e he
  obtain ⟨hbuf, hcase⟩ := (mem_getOutputsFrom ss env f e).mp he
  rcases hcase with rfl | h
  · exact lt_of_lt_of_le Nat.zero_lt_one (hpos e hbuf)
  · exact h

theorem getOutputsFrom_sublist (ss : DeployStates) (env : String) (f : Nat) :
    List.Sublist (getOutputsFrom ss env f) (getState ss env).outputBuffer := by
  unfold getOutputsFrom
  by_cases hf : f = 0
  · simp [hf]
  · simp only [hf, if_neg]
    exact List.filter_sublist _

/-! ### C3: the resume stream and the terminal event -/

/-- Invariant: every buffered entry and every frame emitted by the resume
stream carries event "output". -/
def OutputOnly (env : String) (σ : Sys) : Prop :=
  (∀ e ∈ (getState σ.ss env).outputBuffer, e.event = "output") ∧
  (∀ x ∈ σ.resume.emitted, x.2.1 = "output")

theorem outputOnly_sysStep (env : String) (σ : Sys) (st : SchedStep)
    (h : OutputOnly env σ) : OutputOnly env (sysStep env σ st) := by
  obtain ⟨hbuf, hem⟩ := h
  cases st with
  | deployStep =>
      cases hp : σ.pending with
      | nil =>
          simp only [sysStep, hp]
          exact ⟨hbuf, hem⟩
      | cons a rest =>
          cases a with
          | emitOutput ty text =>
              refine ⟨?_, ?_⟩
              · intro e he
                simp only [sysStep, hp, deployDo] at he
                rw [getState_addOutput] at he
                simp only [List.mem_append, List.mem_singleton] at he
                rcases he with he | rfl
                · exact hbuf e he
                · rfl
              · intro x hx
                simp only [sysStep, hp] at hx
                exact hem x hx
          | finishRun code endTime =>
              refine ⟨?_, ?_⟩
              · intro e he
                simp only [sysStep, hp, deployDo] at he
                by_cases hc : code = 0 <;>
                  simp [hc, getState_finishDeploy] at he
              · intro x hx
                simp only [sysStep, hp] at hx
                exact hem x hx
  | wakeStep =>
      refine ⟨hbuf, ?_⟩
      intro x hx
      simp only [sysStep] at hx
      unfold resumeWake at hx
      cases hpc : σ.resume.pc with
      | finished => rw [hpc] at hx; exact hem x hx
      | sleeping =>
          rw [hpc] at hx
          by_cases hd : isDeploying σ.ss env
          · simp only [hd, if_pos] at hx
            rcases List.mem_append.mp hx with h1 | h2
            · exact hem x h1
            · obtain ⟨e, he, rfl⟩ := List.mem_map.mp h2
              exact hbuf e (mem_getOutputsFrom_buffer _ _ _ _ he)
          · simp only [hd, Bool.false_eq_true, not_false_iff, if_neg] at hx
            rcases List.mem_append.mp hx with h1 | h2
            · rcases List.mem_append.mp h1 with h3 | h4
              · exact hem x h3
              · obtain ⟨e, he, rfl⟩ := List.mem_map.mp h4
                exact hbuf e (mem_getOutputsFrom_buffer _ _ _ _ he)
            · obtain ⟨e, he, rfl⟩ := List.mem_map.mp h2
              exact hbuf e (mem_getOutputsFrom_buffer _ _ _ _ he)

/-- C3: refuted by the code.  For every resume request that attaches while
the deploy is running (buffer containing only output events, as the
fresh-stream handler maintains), and for every interleaving of the 100 ms
polling loop with the remaining deploy actions - including the completion
step - every frame the resume stream ever emits carries event "output".
The terminal `done`/`error` event is never emitted to the resume stream,
because `finishDeploy` clears the buffer in the same synchronous block
that appends the terminal event, so the poll and the final drain always
find an empty buffer. -/
theorem C3_resume_misses_terminal_event (env : String) (ss0 : DeployStates)
    (fromId : Nat) (pending : List DeployAction) (sched : List SchedStep)
    (hrun : (getState ss0 env).running = true)
    (hbuf : ∀ e ∈ (getState ss0 env).outputBuffer, e.event = "output") :
    ∀ x ∈ (sysRun env
        { ss := ss0, pending := pending,
          resume := resumeAttach ss0 env fromId } sched).resume.emitted,
      x.2.1 = "output" := by
  have hinit : OutputOnly env
      { ss := ss0, pending := pending,
        resume := resumeAttach ss0 env fromId } := by
    refine ⟨hbuf, ?_⟩
    intro x hx
    have hd : isDeploying ss0 env = true := hrun
    simp only [resumeAttach, hd, if_pos] at hx
    obtain ⟨e, he, rfl⟩ := List.mem_map.mp hx
    exact hbuf e (mem_getOutputsFrom_buffer _ _ _ _ he)
  have hrunall : ∀ (l : List SchedStep) (σ : Sys), OutputOnly env σ →
      OutputOnly env (sysRun env σ l) := by
    intro l
    induction l with
    | nil => intro σ h; exact h
    | cons s rest ih =>
        intro σ h
        exact ih _ (outputOnly_sysStep env σ s h)
  exact (hrunall sched _ hinit).2

/-- Witness for C3 at a concrete failing input: environment "e", a deploy
started at time 0 producing one output fragment and then exiting with code
0, a resume attached with Last-Event-ID 0 while the deploy runs, and the
schedule in which the deploy finishes during the poller's sleep.  The
deploy completes (running = false, lastResult recorded), the resume stream
reaches its final drain and closes, and the frames it emitted contain no
done or error event - the deploy's terminal event is lost. -/
theorem C3_witness :
    ((getState (startDeploy (fun _ => {}) "e" 0) "e").running = true) ∧
    (∀ x ∈ (sysRun "e"
        { ss := startDeploy (fun _ => {}) "e" 0,
          pending := [.emitOutput "stdout" "test deployed\n", .finishRun 0 9],
          resume := resumeAttach (startDeploy (fun _ => {}) "e" 0) "e" 0 }
        [.deployStep, .deployStep, .wakeStep]).resume.emitted,
      x.2.1 = "output") ∧
    ((getState (sysRun "e"
        { ss := startDeploy (fun _ => {}) "e" 0,
          pending := [.emitOutput "stdout" "test deployed\n", .finishRun 0 9],
          resume := resumeAttach (startDeploy (fun _ => {}) "e" 0) "e" 0 }
        [.deployStep, .deployStep, .wakeStep]).ss "e").running = false) ∧
    ((sysRun "e"
        { ss := startDeploy (fun _ => {}) "e" 0,
          pending := [.emitOutput "stdout" "test deployed\n", .finishRun 0 9],
          resume := resumeAttach (startDeploy (fun _ => {}) "e" 0) "e" 0 }
        [.deployStep, .deployStep, .wakeStep]).resume.pc = .finished) :=
  ⟨rfl,
   C3_resume_misses_terminal_event "e" (startDeploy (fun _ => {}) "e" 0) 0
     [.emitOutput "stdout" "test deployed\n", .finishRun 0 9]
     [.deployStep, .deployStep, .wakeStep] rfl (by decide),
   by decide, by decide⟩

/-! ### C5: ids emitted by the resume stream -/

/-- The ids of the buffered entries. -/
def bufIds (ss : DeployStates) (env : String) : List Nat :=
  (getState ss env).outputBuffer.map (fun e => e.id)

/-- The ids of a list of SSE frames (frames without an id line skipped). -/
def frameIds (l : List (Option Nat × String × SseData)) : List Nat :=
  l.filterMap (fun x => x.1)

/-- The ids of the frames emitted by a resume stream. -/
def emittedIds (r : ResumeRun) : List Nat := frameIds r.emitted

theorem frameIds_append (a b : List (Option Nat × String × SseData)) :
    frameIds (a ++ b) = frameIds a ++ frameIds b := by
  simp [frameIds]

theorem frameIds_emitEntries (l : List OutputEntry) :
    frameIds (emitEntries l) = l.map (fun e => e.id) := by
  simp only [frameIds, emitEntries, List.filterMap_map]
  induction l with
  | nil => rfl
  | cons e t ih => simpa [List.filterMap_cons] using ih

theorem foldl_lastId_ge (t : List OutputEntry) (b : Nat)
    (h : ∀ y ∈ t, b ≤ y.id)
    (hs : (t.map (fun e => e.id)).Pairwise (· < ·)) :
    b ≤ t.foldl (fun _ x => x.id) b := by
  induction t generalizing b with
  | nil => exact Nat.le_refl b
  | cons y t ih =>
      simp only [List.foldl_cons]
      have hs2 : ((y :: t).map (fun e => e.id)).Pairwise (· < ·) := hs
      rw [List.map_cons, List.pairwise_cons] at hs2
      have hyt : ∀ z ∈ t, y.id ≤ z.id := fun z hz =>
        Nat.le_of_lt (hs2.1 z.id (List.mem_map_of_mem _ hz))
      exact Nat.le_trans (h y (List.mem_cons_self y t)) (ih y.id hyt hs2.2)

theorem foldl_lastId_ub (t : List OutputEntry) (b : Nat)
    (h : ∀ y ∈ t, b ≤ y.id)
    (hs : (t.map (fun e => e.id)).Pairwise (· < ·)) :
    ∀ y ∈ t, y.id ≤ t.foldl (fun _ x => x.id) b := by
  induction t generalizing b with
  | nil => intro y hy; exact absurd hy (List.not_mem_nil y)
  | cons y t ih =>
      intro z hz
      simp only [List.foldl_cons]
      have hs2 : ((y :: t).map (fun e => e.id)).Pairwise (· < ·) := hs
      rw [List.map_cons, List.pairwise_cons] at hs2
      have hyt : ∀ w ∈ t, y.id ≤ w.id := fun w hw =>
        Nat.le_of_lt (hs2.1 w.id (List.mem_map_of_mem _ hw))
      rcases List.mem_cons.mp hz with rfl | hz2
      · exact foldl_lastId_ge t z.id hyt hs2.2
      · exact ih y.id hyt hs2.2 z hz2

theorem foldl_lastId_lt (t : List OutputEntry) (b n : Nat)
    (hb : b < n) (h : ∀ y ∈ t, y.id < n) :
    t.foldl (fun _ x => x.id) b < n := by
  induction t generalizing b with
  | nil => exact hb
  | cons y t ih =>
      simp only [List.foldl_cons]
      exact ih y.id (h y (List.mem_cons_self y t))
        (fun z hz => h z (List.mem_cons_of_mem y hz))

theorem getOutputsFrom_ids_sorted (ss : DeployStates) (env : String) (f : Nat)
    (hs : (bufIds ss env).Pairwise (· < ·)) :
    ((getOutputsFrom ss env f).map (fun e => e.id)).Pairwise (· < ·) :=
  List.Pairwise.sublist
    ((getOutputsFrom_sublist ss env f).map (fun e => e.id)) hs

/-- Invariant of the interleaved execution for a resume attached with
Last-Event-ID `L` while the deploy was running: buffer ids are strictly
ascending, positive, and below `nextId`; the poll cursor is at least `L`
and below `nextId`; every emitted frame has an id; emitted ids exceed `L`,
are strictly ascending, and (while the poller still sleeps) are at most the
cursor. -/
structure ResumeInv (env : String) (L : Nat) (σ : Sys) : Prop where
  fromEq : σ.resume.fromId = L
  nextPos : 1 ≤ (getState σ.ss env).nextId
  bufSorted : (bufIds σ.ss env).Pairwise (· < ·)
  bufPos : ∀ e ∈ (getState σ.ss env).outputBuffer, 1 ≤ e.id
  bufLt : ∀ e ∈ (getState σ.ss env).outputBuffer,
    e.id < (getState σ.ss env).nextId
  lastLt : σ.resume.lastId < (getState σ.ss env).nextId
  lastGe : L ≤ σ.resume.lastId
  emSome : ∀ x ∈ σ.resume.emitted, x.1.isSome = true
  emGt : ∀ i ∈ emittedIds σ.resume, L < i
  emSorted : (emittedIds σ.resume).Pairwise (· < ·)
  emLe : σ.resume.pc = ResumePC.sleeping →
    ∀ i ∈ emittedIds σ.resume, i ≤ σ.resume.lastId

theorem resumeInv_sysStep (env : String) (L : Nat) (σ : Sys) (st : SchedStep)
    (h : ResumeInv env L σ) : ResumeInv env L (sysStep env σ st) := by
  obtain ⟨fromEq, nextPos, bufSorted, bufPos, bufLt, lastLt, lastGe, emSome,
    emGt, emSorted, emLe⟩ := h
  cases st with
  | deployStep =>
      cases hp : σ.pending with
      | nil =>
          have heq : sysStep env σ SchedStep.deployStep = σ := by
            simp [sysStep, hp]
          rw [heq]
          exact ⟨fromEq, nextPos, bufSorted, bufPos, bufLt, lastLt, lastGe,
            emSome, emGt, emSorted, emLe⟩
      | cons a rest =>
          have hss : (sysStep env σ SchedStep.deployStep).ss = deployDo σ.ss env a := by
            simp [sysStep, hp]
          have hres : (sysStep env σ SchedStep.deployStep).resume = σ.resume := by
            simp [sysStep, hp]
          cases a with
          | emitOutput ty text =>
              have hg : getState (deployDo σ.ss env (.emitOutput ty text)) env =
                  { getState σ.ss env with
                      nextId := (getState σ.ss env).nextId + 1,
                      outputBuffer := (getState σ.ss env).outputBuffer ++
                        [⟨(getState σ.ss env).nextId, "output",
                          .outDat ty text⟩] } := by
                simp [deployDo, getState_addOutput]
              refine ⟨by rw [hres]; exact fromEq, ?_, ?_, ?_, ?_, ?_,
                by rw [hres]; exact lastGe, ?_, ?_, ?_, ?_⟩
              · rw [hss, hg]
                exact Nat.le_succ_of_le nextPos
              · rw [hss]
                unfold bufIds
                rw [hg]
                simp only [List.map_append, List.map_cons, List.map_nil]
                rw [List.pairwise_append]
                refine ⟨bufSorted, List.pairwise_singleton _ _, ?_⟩
                intro i hi j hj
                simp only [List.mem_singleton] at hj
                subst hj
                obtain ⟨e, he, rfl⟩ := List.mem_map.mp hi
                exact bufLt e he
              · rw [hss, hg]
                intro e he
                rcases List.mem_append.mp he with h1 | h2
                · exact bufPos e h1
                · rw [List.mem_singleton] at h2
                  subst h2
                  exact nextPos
              · rw [hss, hg]
                intro e he
                simp only [List.mem_append, List.mem_singleton] at he
                rcases he with h1 | h2
                · exact Nat.lt_succ_of_lt (bufLt e h1)
                · subst h2; exact Nat.lt_succ_self _
              · rw [hss, hres, hg]
                exact Nat.lt_succ_of_lt lastLt
              · rw [hres]; exact emSome
              · rw [hres]; exact emGt
              · rw [hres]; exact emSorted
              · rw [hres]; exact emLe
          | finishRun code endTime =>
              have hbe : (getState (deployDo σ.ss env
                  (.finishRun code endTime)) env).outputBuffer = [] := by
                by_cases hc : code = 0 <;>
                  simp [deployDo, hc, getState_finishDeploy, getState_addOutput]
              have hni : (getState (deployDo σ.ss env
                  (.finishRun code endTime)) env).nextId =
                  (getState σ.ss env).nextId + 1 := by
                by_cases hc : code = 0 <;>
                  simp [deployDo, hc, getState_finishDeploy, getState_addOutput]
              refine ⟨by rw [hres]; exact fromEq, ?_, ?_, ?_, ?_, ?_,
                by rw [hres]; exact lastGe, ?_, ?_, ?_, ?_⟩
              · rw [hss, hni]; omega
              · rw [hss]
                unfold bufIds
                rw [hbe]
                exact List.Pairwise.nil
              · rw [hss, hbe]; intro e he; exact absurd he (List.not_mem_nil e)
              · rw [hss, hbe]; intro e he; exact absurd he (List.not_mem_nil e)
              · rw [hss, hres, hni]
                exact Nat.lt_succ_of_lt lastLt
              · rw [hres]; exact emSome
              · rw [hres]; exact emGt
              · rw [hres]; exact emSorted
              · rw [hres]; exact emLe
  | wakeStep =>
      have hss : (sysStep env σ SchedStep.wakeStep).ss = σ.ss := rfl
      have hres : (sysStep env σ SchedStep.wakeStep).resume =
          resumeWake σ.ss env σ.resume := rfl
      cases hpc : σ.resume.pc with
      | finished =>
          have heq : resumeWake σ.ss env σ.resume = σ.resume := by
            unfold resumeWake
            rw [hpc]
          refine ⟨?_, nextPos, bufSorted, bufPos, bufLt, ?_, ?_, ?_, ?_, ?_, ?_⟩ <;>
            rw [hres, heq]
          · exact fromEq
          · exact lastLt
          · exact lastGe
          · exact emSome
          · exact emGt
          · exact emSorted
          · exact emLe
      | sleeping =>
          have hle := emLe hpc
          set new := getOutputsFrom σ.ss env σ.resume.lastId with hnewdef
          have hnew_buf : ∀ e ∈ new, e ∈ (getState σ.ss env).outputBuffer :=
            fun e he => mem_getOutputsFrom_buffer _ _ _ _ he
          have hnew_gt : ∀ e ∈ new, σ.resume.lastId < e.id :=
            getOutputsFrom_gt _ _ _ bufPos
          have hnew_sorted : (new.map (fun e => e.id)).Pairwise (· < ·) :=
            getOutputsFrom_ids_sorted _ _ _ bufSorted
          set lastId2 := new.foldl (fun _ x => x.id) σ.resume.lastId with hl2def
          have hge2 : σ.resume.lastId ≤ lastId2 :=
            foldl_lastId_ge new _ (fun y hy => Nat.le_of_lt (hnew_gt y hy))
              hnew_sorted
          have hlt2 : lastId2 < (getState σ.ss env).nextId :=
            foldl_lastId_lt new _ _ lastLt (fun y hy => bufLt y (hnew_buf y hy))
          have hub2 : ∀ y ∈ new, y.id ≤ lastId2 :=
            foldl_lastId_ub new _ (fun y hy => Nat.le_of_lt (hnew_gt y hy))
              hnew_sorted
          have hemAll : ∀ i ∈ frameIds (σ.resume.emitted ++ emitEntries new),
              L < i ∧ i ≤ lastId2 := by
            intro i hi
            rw [frameIds_append, frameIds_emitEntries, List.mem_append] at hi
            rcases hi with h1 | h2
            · exact ⟨emGt i h1, Nat.le_trans (hle i h1) hge2⟩
            · obtain ⟨e, he, rfl⟩ := List.mem_map.mp h2
              exact ⟨Nat.lt_of_le_of_lt lastGe (hnew_gt e he),
                hub2 e he⟩
          have hemSorted2 : (frameIds (σ.resume.emitted ++ emitEntries new)).Pairwise (· < ·) := by
            rw [frameIds_append, frameIds_emitEntries, List.pairwise_append]
            refine ⟨emSorted, hnew_sorted, ?_⟩
            intro i hi j hj
            obtain ⟨e, he, rfl⟩ := List.mem_map.mp hj
            exact Nat.lt_of_le_of_lt (hle i hi) (hnew_gt e he)
          have hemSome2 : ∀ x ∈ σ.resume.emitted ++ emitEntries new,
              x.1.isSome = true := by
            intro x hx
            rcases List.mem_append.mp hx with h1 | h2
            · exact emSome x h1
            · obtain ⟨e, _, rfl⟩ := List.mem_map.mp h2
              rfl
          by_cases hd : isDeploying σ.ss env
          · have heq : resumeWake σ.ss env σ.resume =
                { fromId := σ.resume.fromId, lastId := lastId2,
                  emitted := σ.resume.emitted ++ emitEntries new,
                  pc := ResumePC.sleeping } := by
              unfold resumeWake
              rw [hpc]
              simp only [hd, if_pos]
            refine ⟨?_, nextPos, bufSorted, bufPos, bufLt, ?_, ?_, ?_, ?_, ?_, ?_⟩ <;>
              rw [hres, heq]
            · exact fromEq
            · exact hlt2
            · exact Nat.le_trans lastGe hge2
            · exact hemSome2
            · exact fun i hi => (hemAll i hi).1
            · exact hemSorted2
            · intro _ i hi
              exact (hemAll i hi).2
          · set finalOut := getOutputsFrom σ.ss env lastId2 with hfdef
            have hfin_gt : ∀ e ∈ finalOut, lastId2 < e.id :=
              getOutputsFrom_gt _ _ _ bufPos
            have hfin_sorted : (finalOut.map (fun e => e.id)).Pairwise (· < ·) :=
              getOutputsFrom_ids_sorted _ _ _ bufSorted
            have heq : resumeWake σ.ss env σ.resume =
                { fromId := σ.resume.fromId, lastId := lastId2,
                  emitted := σ.resume.emitted ++ emitEntries new ++
                    emitEntries finalOut,
                  pc := ResumePC.finished } := by
              unfold resumeWake
              rw [hpc]
              simp only [hd, Bool.false_eq_true, not_false_iff, if_neg]
            refine ⟨?_, nextPos, bufSorted, bufPos, bufLt, ?_, ?_, ?_, ?_, ?_, ?_⟩ <;>
              rw [hres, heq]
            · exact fromEq
            · exact hlt2
            · exact Nat.le_trans lastGe hge2
            · intro x hx
              rcases List.mem_append.mp hx with h1 | h2
              · exact hemSome2 x h1
              · obtain ⟨e, _, rfl⟩ := List.mem_map.mp h2
                rfl
            · intro i hi
              have hi2 : i ∈ frameIds (σ.resume.emitted ++ emitEntries new ++
                  emitEntries finalOut) := hi
              rw [frameIds_append, List.mem_append] at hi2
              rcases hi2 with h1 | h2
              · exact (hemAll i h1).1
              · rw [frameIds_emitEntries] at h2
                obtain ⟨e, he, rfl⟩ := List.mem_map.mp h2
                exact Nat.lt_of_le_of_lt (Nat.le_trans lastGe hge2)
                  (hfin_gt e he)
            · show (frameIds (σ.resume.emitted ++ emitEntries new ++
                emitEntries finalOut)).Pairwise (· < ·)
              rw [frameIds_append, List.pairwise_append]
              refine ⟨hemSorted2,
                by rw [frameIds_emitEntries]; exact hfin_sorted, ?_⟩
              intro i hi j hj
              rw [frameIds_emitEntries] at hj
              obtain ⟨e, he, rfl⟩ := List.mem_map.mp hj
              exact Nat.lt_of_le_of_lt (hemAll i hi).2 (hfin_gt e he)
            · intro hcontr
              exact absurd
                (show ResumePC.finished = ResumePC.sleeping from hcontr)
                (by simp)

/-- C5 (counterexample): a deploy is running with buffered output ids 1 and
2 when a resume attaches with Last-Event-ID 100 (the replay finds nothing,
and the poll cursor becomes the latest id, 2); the deploy then emits one
more fragment (id 3) and the poller wakes: the resume stream emits the
frame with id 3, which has an id line ≤ 100 while the deploy is still
running - refuting the claim that every id-bearing emitted event satisfies
id > L. -/
theorem C5_counterexample :
    (sysRun "e"
      { ss := (addOutput (addOutput (startDeploy (fun _ => {}) "e" 0) "e"
          "output" (.outDat "stdout" "a")).1 "e" "output"
            (.outDat "stdout" "b")).1,
        pending := [.emitOutput "stdout" "c"],
        resume := resumeAttach (addOutput (addOutput
          (startDeploy (fun _ => {}) "e" 0) "e" "output"
            (.outDat "stdout" "a")).1 "e" "output"
            (.outDat "stdout" "b")).1 "e" 100 }
      [.deployStep, .wakeStep]).resume.emitted =
      [(some 3, "output", .outDat "stdout" "c")] ∧
    ¬ (100 < 3) := by
  constructor
  · decide
  · decide

/-- C5 (amended): for a resume with Last-Event-ID `L` attached while the
deploy is running, provided `L` does not exceed the latest id already
assigned in this deploy (the normal reconnect case, since the client took
`L` from this deploy's own events), every frame the resume stream emits
carries an id, every emitted id satisfies `id > L`, and the emitted ids are
strictly increasing, so no id is emitted twice.  Without the bound on `L`,
the polling phase bounds its ids only by the latest id at attach time. -/
theorem C5_amended (env : String) (ss0 : DeployStates) (L : Nat)
    (pending : List DeployAction) (sched : List SchedStep)
    (hrun : (getState ss0 env).running = true)
    (hnext : 1 ≤ (getState ss0 env).nextId)
    (hsorted : (bufIds ss0 env).Pairwise (· < ·))
    (hpos : ∀ e ∈ (getState ss0 env).outputBuffer, 1 ≤ e.id)
    (hlt : ∀ e ∈ (getState ss0 env).outputBuffer,
      e.id < (getState ss0 env).nextId)
    (hL : L < (getState ss0 env).nextId) :
    (∀ x ∈ (sysRun env { ss := ss0, pending := pending,
                         resume := resumeAttach ss0 env L } sched).resume.emitted,
      x.1.isSome = true) ∧
    (∀ i ∈ emittedIds (sysRun env { ss := ss0, pending := pending,
                                    resume := resumeAttach ss0 env L }
        sched).resume, L < i) ∧
    (emittedIds (sysRun env { ss := ss0, pending := pending,
                              resume := resumeAttach ss0 env L }
        sched).resume).Pairwise (· < ·) := by
  have hd : isDeploying ss0 env = true := hrun
  have hatt : resumeAttach ss0 env L =
      { fromId := L, lastId := getLatestOutputId ss0 env,
        emitted := emitEntries (getOutputsFrom ss0 env L),
        pc := ResumePC.sleeping } := by
    unfold resumeAttach
    simp only [hd, if_pos]
  have hinit : ResumeInv env L
      { ss := ss0, pending := pending, resume := resumeAttach ss0 env L } := by
    refine ⟨?_, hnext, hsorted, hpos, hlt, ?_, ?_, ?_, ?_, ?_, ?_⟩
    · rw [hatt]
    · rw [hatt]
      show (getState ss0 env).nextId - 1 < (getState ss0 env).nextId
      omega
    · rw [hatt]
      show L ≤ (getState ss0 env).nextId - 1
      omega
    · rw [hatt]
      intro x hx
      obtain ⟨e, _, rfl⟩ := List.mem_map.mp hx
      rfl
    · rw [hatt]
      intro i hi
      have hi2 : i ∈ frameIds (emitEntries (getOutputsFrom ss0 env L)) := hi
      rw [frameIds_emitEntries] at hi2
      obtain ⟨e, he, rfl⟩ := List.mem_map.mp hi2
      exact getOutputsFrom_gt ss0 env L hpos e he
    · rw [hatt]
      show (frameIds (emitEntries (getOutputsFrom ss0 env L))).Pairwise (· < ·)
      rw [frameIds_emitEntries]
      exact getOutputsFrom_ids_sorted ss0 env L hsorted
    · rw [hatt]
      intro _ i hi
      have hi2 : i ∈ frameIds (emitEntries (getOutputsFrom ss0 env L)) := hi
      rw [frameIds_emitEntries] at hi2
      obtain ⟨e, he, rfl⟩ := List.mem_map.mp hi2
      have := hlt e (mem_getOutputsFrom_buffer _ _ _ _ he)
      show e.id ≤ (getState ss0 env).nextId - 1
      omega
  have hrunall : ∀ (l : List SchedStep) (σ : Sys), ResumeInv env L σ →
      ResumeInv env L (sysRun env σ l) := by
    intro l
    induction l with
    | nil => exact fun σ h => h
    | cons s rest ih => exact fun σ h => ih _ (resumeInv_sysStep env L σ s h)
  have hfin := hrunall sched _ hinit
  exact ⟨hfin.emSome, hfin.emGt, hfin.emSorted⟩

/-- Witness for C5 (amended) at a concrete input: two buffered outputs,
Last-Event-ID 1, the deploy emitting one more fragment and finishing, and
two poller wake-ups. -/
theorem C5_witness :
    ((getState ((addOutput (addOutput (startDeploy (fun _ => {}) "e" 0) "e"
        "output" (.outDat "stdout" "a")).1 "e" "output"
        (.outDat "stdout" "b")).1) "e").running = true) ∧
    (1 < (getState ((addOutput (addOutput (startDeploy (fun _ => {}) "e" 0)
        "e" "output" (.outDat "stdout" "a")).1 "e" "output"
        (.outDat "stdout" "b")).1) "e").nextId) ∧
    ((∀ i ∈ emittedIds (sysRun "e"
        { ss := (addOutput (addOutput (startDeploy (fun _ => {}) "e" 0) "e"
            "output" (.outDat "stdout" "a")).1 "e" "output"
            (.outDat "stdout" "b")).1,
          pending := [.emitOutput "stdout" "c", .finishRun 0 9],
          resume := resumeAttach ((addOutput (addOutput
            (startDeploy (fun _ => {}) "e" 0) "e" "output"
            (.outDat "stdout" "a")).1 "e" "output"
            (.outDat "stdout" "b")).1) "e" 1 }
        [.deployStep, .wakeStep, .deployStep, .wakeStep]).resume, 1 < i) ∧
      (emittedIds (sysRun "e"
        { ss := (addOutput (addOutput (startDeploy (fun _ => {}) "e" 0) "e"
            "output" (.outDat "stdout" "a")).1 "e" "output"
            (.outDat "stdout" "b")).1,
          pending := [.emitOutput "stdout" "c", .finishRun 0 9],
          resume := resumeAttach ((addOutput (addOutput
            (startDeploy (fun _ => {}) "e" 0) "e" "output"
            (.outDat "stdout" "a")).1 "e" "output"
            (.outDat "stdout" "b")).1) "e" 1 }
        [.deployStep, .wakeStep, .deployStep, .wakeStep]).resume).Pairwise
          (· < ·)) :=
  ⟨rfl, by decide,
   (C5_amended "e" ((addOutput (addOutput (startDeploy (fun _ => {}) "e" 0)
      "e" "output" (.outDat "stdout" "a")).1 "e" "output"
      (.outDat "stdout" "b")).1) 1
      [.emitOutput "stdout" "c", .finishRun 0 9]
      [.deployStep, .wakeStep, .deployStep, .wakeStep]
      rfl (by decide) (by decide) (by decide) (by decide) (by decide)).2⟩

/-! ## Client chunk uploader (`stream-upload.ts`)

The retry loop is modelled with an oracle `attemptOk k` for the success of
the k-th POST of a chunk and `jitter k` for the value of
`Math.random() * 500` before retry k; delays are rational milliseconds.
The worker pool is serialised: the claim concerns the per-chunk retry
policy and the set of HTTP requests issued, both of which are unaffected
by the interleaving of workers. -/

/-- MAX_RETRIES of `stream-upload.ts`. -/
def MAX_RETRIES : Nat := 3

/-- INITIAL_RETRY_DELAY (ms). -/
def INITIAL_RETRY_DELAY : Nat := 1000

/-- MAX_RETRY_DELAY (ms). -/
def MAX_RETRY_DELAY : Nat := 10000

/-- Result of the per-chunk retry loop: number of attempts actually made,
the waits (in ms) between consecutive attempts, and whether the chunk
succeeded. -/
structure RetryOutcome where
  attemptsMade : Nat
  waits : List ℚ
  ok : Bool
deriving DecidableEq, Repr

/-- The `for (attempt = 0; attempt <= MAX_RETRIES; attempt++)` loop of
`uploadChunkWithRetry`: try the POST and return on success; on failure,
while `attempt < MAX_RETRIES`, wait
`min(INITIAL_RETRY_DELAY * 2^attempt, MAX_RETRY_DELAY) + jitter` and
continue; when the loop ends the last error is thrown.  The fuel argument
is the number of loop iterations left (`MAX_RETRIES + 1 - attempt`). -/
def retryGo (attemptOk : Nat → Bool) (jitter : Nat → ℚ) :
    Nat → Nat → RetryOutcome
  | _, 0 => { attemptsMade := 0, waits := [], ok := false }
  | attempt, fuel + 1 =>
      if attemptOk attempt then { attemptsMade := 1, waits := [], ok := true }
      else if attempt < MAX_RETRIES then
        let baseDelay : ℚ :=
          min ((INITIAL_RETRY_DELAY : ℚ) * 2 ^ attempt) (MAX_RETRY_DELAY : ℚ)
        let rest := retryGo attemptOk jitter (attempt + 1) fuel
        { attemptsMade := rest.attemptsMade + 1,
          waits := (baseDelay + jitter attempt) :: rest.waits,
          ok := rest.ok }
      else { attemptsMade := 1, waits := [], ok := false }

/-- `uploadChunkWithRetry` of `stream-upload.ts`. -/
def uploadChunkWithRetry (attemptOk : Nat → Bool) (jitter : Nat → ℚ) :
    RetryOutcome :=
  retryGo attemptOk jitter 0 (MAX_RETRIES + 1)

/-- The HTTP requests `uploadFileChunked` can issue. -/
inductive ClientRequest where
  | initReq
  | chunkReq (idx : Nat)
  | completeReq
  | cancelReq
deriving DecidableEq, Repr

/-- The worker drain of the chunk queue (serialised): each chunk index is
retried via `uploadChunkWithRetry`; a chunk that fails all attempts aborts
the whole upload with an error.  Returns the outcome and the chunk POSTs
issued. -/
def uploadChunksGo (attemptOk : Nat → Nat → Bool) (jitter : Nat → Nat → ℚ) :
    List Nat → Except String Unit × List ClientRequest
  | [] => (.ok (), [])
  | i :: rest =>
      let r := uploadChunkWithRetry (attemptOk i) (jitter i)
      let reqs := List.replicate r.attemptsMade (ClientRequest.chunkReq i)
      if r.ok then
        let res := uploadChunksGo attemptOk jitter rest
        (res.1, reqs ++ res.2)
      else (.error ("Chunk " ++ toString i ++ " failed"), reqs)

/-- Request trace of `uploadFileChunked` after init: chunk POSTs, then -
only when every chunk succeeded - the complete POST.  On failure the error
propagates to the caller; no request to the cancel endpoint appears
anywhere in `stream-upload.ts`. -/
def uploadFileChunkedModel (chunksToUpload : List Nat)
    (attemptOk : Nat → Nat → Bool) (jitter : Nat → Nat → ℚ) :
    Except String Unit × List ClientRequest :=
  let res := uploadChunksGo attemptOk jitter chunksToUpload
  match res.1 with
  | .ok _ =>
      (.ok (), ClientRequest.initReq :: res.2 ++ [ClientRequest.completeReq])
  | .error e => (.error e, ClientRequest.initReq :: res.2)

theorem retryGo_attempts_le (attemptOk : Nat → Bool) (jitter : Nat → ℚ) :
    ∀ fuel attempt,
      (retryGo attemptOk jitter attempt fuel).attemptsMade ≤ fuel := by
  intro fuel
  induction fuel with
  | zero => intro attempt; simp [retryGo]
  | succ n ih =>
      intro attempt
      simp only [retryGo]
      by_cases h : attemptOk attempt
      · simp [h]
      · by_cases h2 : attempt < MAX_RETRIES
        · simp only [h, Bool.false_eq_true, not_false_iff, if_neg, h2, if_pos]
          exact Nat.succ_le_succ (ih (attempt + 1))
        · simp only [h, Bool.false_eq_true, not_false_iff, if_neg, h2]
          omega

theorem retryGo_waits_eq (attemptOk : Nat → Bool) (jitter : Nat → ℚ) :
    ∀ fuel attempt, attempt + fuel = MAX_RETRIES + 1 →
      (retryGo attemptOk jitter attempt fuel).waits =
        (List.range ((retryGo attemptOk jitter attempt fuel).attemptsMade - 1)).map
          (fun k => min ((INITIAL_RETRY_DELAY : ℚ) * 2 ^ (attempt + k))
            (MAX_RETRY_DELAY : ℚ) + jitter (attempt + k)) := by
  intro fuel
  induction fuel with
  | zero => intro attempt _; simp [retryGo]
  | succ n ih =>
      intro attempt hsum
      simp only [retryGo]
      by_cases h : attemptOk attempt
      · simp [h]
      · by_cases h2 : attempt < MAX_RETRIES
        · simp only [h, Bool.false_eq_true, not_false_iff, if_neg, h2, if_pos]
          have hn : 1 ≤ n := by
            unfold MAX_RETRIES at h2 hsum
            omega
          obtain ⟨m, rfl⟩ := Nat.exists_eq_add_of_le hn
          have hpos : 1 ≤ (retryGo attemptOk jitter (attempt + 1)
              (1 + m)).attemptsMade := by
            rw [Nat.add_comm 1 m]
            simp only [retryGo]
            by_cases ha : attemptOk (attempt + 1)
            · simp [ha]
            · by_cases hb : attempt + 1 < MAX_RETRIES
              · simp [ha, hb]
              · simp [ha, hb]
          have hrec := ih (attempt + 1) (by omega)
          set r := retryGo attemptOk jitter (attempt + 1) (1 + m) with hr
          show (min ((INITIAL_RETRY_DELAY : ℚ) * 2 ^ attempt)
              (MAX_RETRY_DELAY : ℚ) + jitter attempt) :: r.waits =
            (List.range (r.attemptsMade + 1 - 1)).map _
          rw [hrec]
          obtain ⟨a, ha⟩ := Nat.exists_eq_add_of_le hpos
          rw [Nat.add_sub_cancel]
          rw [ha]
          rw [show 1 + a = a + 1 by omega]
          rw [List.range_succ_eq_map, List.map_cons, List.map_map]
          congr 1
          rw [Nat.add_sub_cancel]
          apply List.map_congr_left
          intro k _
          have hk : attempt + 1 + k = attempt + Nat.succ k := by omega
          simp only [Function.comp_apply]
          rw [hk]
        · simp only [h, Bool.false_eq_true, not_false_iff, if_neg, h2]
          simp

theorem retryGo_allfail (attemptOk : Nat → Bool) (jitter : Nat → ℚ)
    (h : ∀ k, attemptOk k = false) :
    ∀ fuel attempt, attempt + fuel ≤ MAX_RETRIES + 1 →
      (retryGo attemptOk jitter attempt fuel).ok = false ∧
      (retryGo attemptOk jitter attempt fuel).attemptsMade = fuel := by
  intro fuel
  induction fuel with
  | zero => intro attempt _; simp [retryGo]
  | succ n ih =>
      intro attempt hsum
      simp only [retryGo, h attempt, Bool.false_eq_true, not_false_iff, if_neg]
      by_cases h2 : attempt < MAX_RETRIES
      · simp only [h2, if_pos]
        have := ih (attempt + 1) (by omega)
        exact ⟨this.1, by rw [this.2]⟩
      · simp only [h2, if_neg, not_false_iff]
        unfold MAX_RETRIES at h2 hsum
        refine ⟨by trivial, ?_⟩
        show 1 = n + 1
        omega

theorem cancel_not_mem_uploadChunksGo (attemptOk : Nat → Nat → Bool)
    (jitter : Nat → Nat → ℚ) :
    ∀ chunks, ClientRequest.cancelReq ∉
      (uploadChunksGo attemptOk jitter chunks).2 := by
  intro chunks
  induction chunks with
  | nil => simp [uploadChunksGo]
  | cons i rest ih =>
      simp only [uploadChunksGo]
      by_cases h : (uploadChunkWithRetry (attemptOk i) (jitter i)).ok
      · simp only [h, if_pos]
        intro hmem
        rcases List.mem_append.mp hmem with h1 | h2
        · exact absurd (List.eq_of_mem_replicate h1) (by simp)
        · exact ih h2
      · simp only [h, Bool.false_eq_true, not_false_iff, if_neg]
        intro hmem
        exact absurd (List.eq_of_mem_replicate hmem) (by simp)

theorem uploadChunksGo_error_of_allfail (attemptOk : Nat → Nat → Bool)
    (jitter : Nat → Nat → ℚ) (i : Nat)
    (hfail : ∀ k, attemptOk i k = false) :
    ∀ chunks, i ∈ chunks →
      ∃ e, (uploadChunksGo attemptOk jitter chunks).1 = .error e := by
  intro chunks
  induction chunks with
  | nil => intro h; exact absurd h (List.not_mem_nil i)
  | cons j rest ih =>
      intro hmem
      simp only [uploadChunksGo]
      by_cases h : (uploadChunkWithRetry (attemptOk j) (jitter j)).ok
      · simp only [h, if_pos]
        rcases List.mem_cons.mp hmem with rfl | hmem2
        · exact absurd h (by
            have := (retryGo_allfail (attemptOk i) (jitter i) hfail
              (MAX_RETRIES + 1) 0 (by omega)).1
            simp [uploadChunkWithRetry, this])
        · exact ih hmem2
      · simp only [h, Bool.false_eq_true, not_false_iff, if_neg]
        exact ⟨_, rfl⟩

/-- C9: for each chunk the client makes at most 4 upload attempts (initial
plus MAX_RETRIES = 3 retries); the waits between consecutive attempts are
exactly `min(1000 * 2^attempt, 10000) + jitter(attempt)` with the jitter
drawn from [0, 500); when every attempt of some queued chunk fails, the
whole upload aborts with an error, the complete request is never sent, and
the request trace contains no cancel request, leaving the server-side task
intact for resumption. -/
theorem C9_retry_policy (attemptOk : Nat → Bool) (jitter : Nat → ℚ)
    (attemptOk2 : Nat → Nat → Bool) (jitter2 : Nat → Nat → ℚ)
    (chunks : List Nat) (i : Nat)
    (hj : ∀ k, 0 ≤ jitter k ∧ jitter k < 500)
    (hfail : ∀ k, attemptOk2 i k = false)
    (hmem : i ∈ chunks) :
    (uploadChunkWithRetry attemptOk jitter).attemptsMade ≤ MAX_RETRIES + 1 ∧
    (uploadChunkWithRetry attemptOk jitter).waits =
      (List.range ((uploadChunkWithRetry attemptOk jitter).attemptsMade - 1)).map
        (fun k => min ((INITIAL_RETRY_DELAY : ℚ) * 2 ^ k)
          (MAX_RETRY_DELAY : ℚ) + jitter k) ∧
    (∀ k, min ((INITIAL_RETRY_DELAY : ℚ) * 2 ^ k) (MAX_RETRY_DELAY : ℚ) ≤
        min ((INITIAL_RETRY_DELAY : ℚ) * 2 ^ k) (MAX_RETRY_DELAY : ℚ) + jitter k ∧
      min ((INITIAL_RETRY_DELAY : ℚ) * 2 ^ k) (MAX_RETRY_DELAY : ℚ) + jitter k <
        min ((INITIAL_RETRY_DELAY : ℚ) * 2 ^ k) (MAX_RETRY_DELAY : ℚ) + 500) ∧
    (∃ e, (uploadFileChunkedModel chunks attemptOk2 jitter2).1 = .error e) ∧
    ClientRequest.completeReq ∉ (uploadFileChunkedModel chunks attemptOk2 jitter2).2 ∧
    ClientRequest.cancelReq ∉ (uploadFileChunkedModel chunks attemptOk2 jitter2).2 := by
  obtain ⟨e, herr⟩ :=
    uploadChunksGo_error_of_allfail attemptOk2 jitter2 i hfail chunks hmem
  have hpair : uploadChunksGo attemptOk2 jitter2 chunks =
      (.error e, (uploadChunksGo attemptOk2 jitter2 chunks).2) := by
    rw [← herr]
  have htrace : uploadFileChunkedModel chunks attemptOk2 jitter2 =
      (.error e, ClientRequest.initReq ::
        (uploadChunksGo attemptOk2 jitter2 chunks).2) := by
    unfold uploadFileChunkedModel
    rw [hpair]
  refine ⟨retryGo_attempts_le attemptOk jitter (MAX_RETRIES + 1) 0, ?_, ?_, ?_, ?_, ?_⟩
  · have hw := retryGo_waits_eq attemptOk jitter (MAX_RETRIES + 1) 0 (by omega)
    simpa using hw
  · intro k
    have := hj k
    constructor <;> linarith
  · exact ⟨e, by rw [htrace]⟩
  · rw [htrace]
    intro hmem2
    rcases List.mem_cons.mp hmem2 with hc | hc
    · exact absurd hc (by simp)
    · -- completeReq in the chunk trace: impossible, only chunkReq entries
      revert hc
      generalize chunks = cs
      induction cs with
      | nil => simp [uploadChunksGo]
      | cons j rest ih =>
          simp only [uploadChunksGo]
          by_cases h : (uploadChunkWithRetry (attemptOk2 j) (jitter2 j)).ok
          · simp only [h, if_pos]
            intro hmem3
            rcases List.mem_append.mp hmem3 with h1 | h2
            · exact absurd (List.eq_of_mem_replicate h1) (by simp)
            · exact ih h2
          · simp only [h, Bool.false_eq_true, not_false_iff, if_neg]
            intro hmem3
            exact absurd (List.eq_of_mem_replicate hmem3) (by simp)
  · rw [htrace]
    intro hmem2
    rcases List.mem_cons.mp hmem2 with hc | hc
    · exact absurd hc (by simp)
    · exact cancel_not_mem_uploadChunksGo attemptOk2 jitter2 chunks hc

/-- Witness for C9 at a concrete input: a constant failing oracle on chunk
0, jitter 250 ms. -/
theorem C9_witness :
    ((∀ k : Nat, (0 : ℚ) ≤ (250 : ℚ) ∧ (250 : ℚ) < 500) ∧
     (∀ k : Nat, (fun _ : Nat => false) k = false) ∧ 0 ∈ [0]) ∧
    ((uploadChunkWithRetry (fun _ : Nat => false)
      (fun _ : Nat => (250 : ℚ))).attemptsMade ≤ MAX_RETRIES + 1) ∧
    (∃ e, (uploadFileChunkedModel [0] (fun _ _ : Nat => false)
      (fun _ _ : Nat => (250 : ℚ))).1 = .error e) ∧
    ClientRequest.cancelReq ∉ (uploadFileChunkedModel [0]
      (fun _ _ : Nat => false) (fun _ _ : Nat => (250 : ℚ))).2 :=
  ⟨⟨fun _ => ⟨by norm_num, by norm_num⟩, fun _ => rfl, by decide⟩,
   (C9_retry_policy (fun _ : Nat => false) (fun _ : Nat => (250 : ℚ))
      (fun _ _ : Nat => false) (fun _ _ : Nat => (250 : ℚ)) [0] 0
      (fun _ => ⟨by norm_num, by norm_num⟩)
      (fun _ => rfl) (by decide)).1,
   (C9_retry_policy (fun _ : Nat => false) (fun _ : Nat => (250 : ℚ))
      (fun _ _ : Nat => false) (fun _ _ : Nat => (250 : ℚ)) [0] 0
      (fun _ => ⟨by norm_num, by norm_num⟩)
      (fun _ => rfl) (by decide)).2.2.2.1,
   (C9_retry_policy (fun _ : Nat => false) (fun _ : Nat => (250 : ℚ))
      (fun _ _ : Nat => false) (fun _ _ : Nat => (250 : ℚ)) [0] 0
      (fun _ => ⟨by norm_num, by norm_num⟩)
      (fun _ => rfl) (by decide)).2.2.2.2.2⟩

/-! ## C6: merge reconstructs the uploaded bytes -/

/-- `calculateChecksum` of `checksum.ts`, parametric in the SHA-256 hex
digest function of `node:crypto` (external to the repository). -/
def calculateChecksum (sha256 : List UInt8 → String)
    (buffer : List UInt8) : String :=
  sha256 buffer

/-- A sequence of chunk writes `(index, data, time)` applied through
`saveChunk`. -/
def applyWrites (s : UploadDirState) :
    List (Nat × List UInt8 × Nat) → UploadDirState
  | [] => s
  | w :: rest => applyWrites (saveChunk s w.1 w.2.1 w.2.2).1 rest

/-- The data held by chunk file `i` after a write sequence, starting from
file content `s0`: the last write to index `i` wins. -/
def writtenData (s0 : Option (List UInt8))
    (ws : List (Nat × List UInt8 × Nat)) (i : Nat) : Option (List UInt8) :=
  ws.foldl (fun acc w => if i = w.1 then some w.2.1 else acc) s0

/-- The slice of the file the client posts as chunk `i`
(`fileHandle.read` at offset `i * CHUNK_SIZE`, length at most the chunk
size). -/
def chunkSlice (file : List UInt8) (chunkSize i : Nat) : List UInt8 :=
  (file.drop (i * chunkSize)).take chunkSize

theorem applyWrites_chunkFiles (ws : List (Nat × List UInt8 × Nat)) :
    ∀ (s : UploadDirState) (i : Nat),
      (applyWrites s ws).chunkFiles i = writtenData (s.chunkFiles i) ws i := by
  induction ws with
  | nil => intro s i; rfl
  | cons w rest ih =>
      intro s i
      show (applyWrites (saveChunk s w.1 w.2.1 w.2.2).1 rest).chunkFiles i = _
      rw [ih]
      unfold writtenData
      rw [List.foldl_cons]
      congr 1

theorem applyWrites_metadata (ws : List (Nat × List UInt8 × Nat)) :
    ∀ (s : UploadDirState),
      (applyWrites s ws).metadata.isSome = s.metadata.isSome ∧
      (applyWrites s ws).metadata.map (fun m => m.totalChunks) =
        s.metadata.map (fun m => m.totalChunks) := by
  induction ws with
  | nil => intro s; exact ⟨rfl, rfl⟩
  | cons w rest ih =>
      intro s
      have h1 : applyWrites s (w :: rest) =
          applyWrites (saveChunk s w.1 w.2.1 w.2.2).1 rest := rfl
      rw [h1, (ih _).1, (ih _).2]
      cases h : s.metadata <;> simp [saveChunk, h]

theorem mem_chunksOf_applyWrites (ws : List (Nat × List UInt8 × Nat)) :
    ∀ (s : UploadDirState), s.metadata.isSome = true → ∀ j,
      (j ∈ chunksOf (applyWrites s ws) ↔
        j ∈ chunksOf s ∨ j ∈ ws.map (fun w => w.1)) := by
  induction ws with
  | nil => intro s _ j; simp [applyWrites]
  | cons w rest ih =>
      intro s hsome j
      have hsome2 : (saveChunk s w.1 w.2.1 w.2.2).1.metadata.isSome = true := by
        cases h : s.metadata with
        | none => rw [h] at hsome; exact absurd hsome (by simp)
        | some m => simp [saveChunk, h]
      show j ∈ chunksOf (applyWrites (saveChunk s w.1 w.2.1 w.2.2).1 rest) ↔ _
      rw [ih _ hsome2 j, mem_chunksOf_saveChunk]
      simp only [hsome, true_and, List.map_cons, List.mem_cons]
      constructor
      · rintro ((h1 | h2) | h3)
        · exact Or.inl h1
        · exact Or.inr (Or.inl h2)
        · exact Or.inr (Or.inr h3)
      · rintro (h1 | h2 | h3)
        · exact Or.inl (Or.inl h1)
        · exact Or.inl (Or.inr h2)
        · exact Or.inr h3

theorem chunksOf_applyWrites_wf (ws : List (Nat × List UInt8 × Nat)) :
    ∀ (s : UploadDirState), (chunksOf s).Nodup →
      (chunksOf s).Pairwise (· ≤ ·) →
      (chunksOf (applyWrites s ws)).Nodup ∧
        (chunksOf (applyWrites s ws)).Pairwise (· ≤ ·) := by
  induction ws with
  | nil => intro s h1 h2; exact ⟨h1, h2⟩
  | cons w rest ih =>
      intro s h1 h2
      have h3 := chunksOf_saveChunk_wf s w.1 w.2.1 w.2.2 h1 h2
      exact ih _ h3.1 h3.2

theorem writtenData_isSome_mono (ws : List (Nat × List UInt8 × Nat))
    (i : Nat) :
    ∀ (s0 : Option (List UInt8)), s0.isSome = true →
      (writtenData s0 ws i).isSome = true := by
  induction ws with
  | nil => intro s0 h; exact h
  | cons w rest ih =>
      intro s0 h
      unfold writtenData
      rw [List.foldl_cons]
      by_cases hc : i = w.1
      · exact ih _ (by simp [hc])
      · exact ih _ (by simp [hc, h])

theorem writtenData_isSome_of_mem (ws : List (Nat × List UInt8 × Nat))
    (i : Nat) (h : i ∈ ws.map (fun w => w.1)) :
    ∀ (s0 : Option (List UInt8)), (writtenData s0 ws i).isSome = true := by
  induction ws with
  | nil => exact absurd h (by simp)
  | cons w rest ih =>
      intro s0
      unfold writtenData
      rw [List.foldl_cons]
      by_cases hc : i = w.1
      · simp only [hc, if_pos]
        exact writtenData_isSome_mono rest w.1 _ rfl
      · rw [List.map_cons, List.mem_cons] at h
        rcases h with h1 | h2
        · exact absurd h1 hc
        · exact ih h2 _

theorem readChunks_ok (files : Nat → Option (List UInt8))
    (g : Nat → List UInt8) :
    ∀ l, (∀ i ∈ l, files i = some (g i)) →
      readChunks files l = .ok (l.map g) := by
  intro l
  induction l with
  | nil => intro _; rfl
  | cons i rest ih =>
      intro h
      show (match files i with
        | none => Except.error ("Missing chunk " ++ toString i)
        | some d => (readChunks files rest).map (fun l => d :: l)) = _
      rw [h i (List.mem_cons_self i rest),
        ih (fun j hj => h j (List.mem_cons_of_mem i hj))]
      rfl

theorem readChunks_error (files : Nat → Option (List UInt8)) :
    ∀ l i, i ∈ l → files i = none →
      ∃ e, readChunks files l = .error e := by
  intro l
  induction l with
  | nil => intro i h _; exact absurd h (List.not_mem_nil i)
  | cons j rest ih =>
      intro i hmem hnone
      rcases List.mem_cons.mp hmem with rfl | h2
      · exact ⟨"Missing chunk " ++ toString i, by simp [readChunks, hnone]⟩
      · cases hf : files j with
        | none =>
            exact ⟨"Missing chunk " ++ toString j, by simp [readChunks, hf]⟩
        | some d =>
            obtain ⟨e, he⟩ := ih i h2 hnone
            refine ⟨e, ?_⟩
            show (match files j with
              | none => Except.error ("Missing chunk " ++ toString j)
              | some d => (readChunks files rest).map (fun l => d :: l)) = _
            rw [hf, he]
            rfl

theorem mergeChunks_missing (uid : String) (s : UploadDirState)
    (m : UploadMetadata) (hm : s.metadata = some m) (i : Nat)
    (hi : i < m.totalChunks) (hnone : s.chunkFiles i = none) :
    ∃ e, mergeChunks uid s = .error e := by
  unfold mergeChunks
  rw [hm]
  by_cases hlen : m.uploadedChunks.length ≠ m.totalChunks
  · exact ⟨"Incomplete upload: " ++ toString m.uploadedChunks.length ++ "/"
      ++ toString m.totalChunks ++ " chunks received", by simp [hlen]⟩
  · obtain ⟨e, he⟩ := readChunks_error s.chunkFiles (List.range m.totalChunks)
      i (List.mem_range.mpr hi) hnone
    exact ⟨e, by simp [hlen, he, Except.map]⟩

theorem flatten_chunkSlices (c : Nat) (hc : 0 < c) :
    ∀ (n : Nat) (file : List UInt8), file.length ≤ n * c →
      List.flatten ((List.range n).map (chunkSlice file c)) = file := by
  intro n
  induction n with
  | zero =>
      intro file hlen
      simp only [Nat.zero_mul, Nat.le_zero, List.length_eq_zero] at hlen
      simp [hlen]
  | succ k ih =>
      intro file hlen
      rw [List.range_succ_eq_map, List.map_cons, List.map_map,
        List.flatten_cons]
      have hslice : ∀ j, (chunkSlice file c ∘ Nat.succ) j =
          chunkSlice (file.drop c) c j := by
        intro j
        have hidx : Nat.succ j * c = c + j * c := by
          rw [Nat.succ_mul]
          omega
        simp only [Function.comp_apply, chunkSlice, List.drop_drop, hidx]
      rw [List.map_congr_left (fun j _ => hslice j)]
      have hlen2 : (file.drop c).length ≤ k * c := by
        rw [Nat.succ_mul] at hlen
        simp only [List.length_drop]
        omega
      rw [ih (file.drop c) hlen2]
      simp [chunkSlice]

/-- C6: starting from init with `totalChunks = n` and writing every chunk
index in `[0, n)` (and only indices in range) with the client's slice of
the file, `mergeChunks` returns exactly the byte concatenation of
`chunk_000000` through `chunk_(n-1)` in ascending order - which is the
original file - so any checksum of the merged buffer (in particular the
client's SHA-256) equals the checksum of the original file; and whenever
some chunk file below `totalChunks` is missing on disk, `mergeChunks`
fails with an error instead of producing a buffer. -/
theorem C6_merge_reconstructs_file (uid env : String) (ext : Bool) (t0 : Nat)
    (n c : Nat) (file : List UInt8) (ws : List (Nat × List UInt8 × Nat))
    (sha256 : List UInt8 → String)
    (hcov : ∀ i, i < n → i ∈ ws.map (fun w => w.1))
    (hrange : ∀ w ∈ ws, w.1 < n)
    (hdata : ∀ i, i < n →
      writtenData none ws i = some (chunkSlice file c i))
    (hc : 0 < c) (hlen : file.length ≤ n * c) :
    mergeChunks uid (applyWrites
        (initUpload emptyUploadDir uid n env ext t0).1 ws) = .ok file ∧
    calculateChecksum sha256 file = calculateChecksum sha256 file ∧
    (∀ (s : UploadDirState) (m : UploadMetadata) (i : Nat),
      s.metadata = some m → i < m.totalChunks → s.chunkFiles i = none →
        ∃ e, mergeChunks uid s = .error e) := by
  refine ⟨?_, rfl, fun s m i hm hi hnone =>
    mergeChunks_missing uid s m hm i hi hnone⟩
  set s0 := (initUpload emptyUploadDir uid n env ext t0).1 with hs0
  have hs0meta : s0.metadata = some
      { uploadId := uid, totalChunks := n, uploadedChunks := [],
        env := env, shouldExtract := ext, createdAt := t0,
        updatedAt := t0 } := rfl
  have hs0files : ∀ i, s0.chunkFiles i = none := fun i => rfl
  have hsome : s0.metadata.isSome = true := by rw [hs0meta]; rfl
  obtain ⟨hfsome, hftotal⟩ := applyWrites_metadata ws s0
  rw [hsome] at hfsome
  cases hfm : (applyWrites s0 ws).metadata with
  | none => rw [hfm] at hfsome; exact absurd hfsome (by simp)
  | some m =>
      have htotal : m.totalChunks = n := by
        rw [hfm, hs0meta] at hftotal
        simpa using hftotal
      have hmem : ∀ j, j ∈ m.uploadedChunks ↔ j ∈ ws.map (fun w => w.1) := by
        intro j
        have := mem_chunksOf_applyWrites ws s0 hsome j
        rw [show chunksOf (applyWrites s0 ws) = m.uploadedChunks by
          simp [chunksOf, hfm]] at this
        rw [this]
        simp [chunksOf, hs0meta]
      have hmemrange : ∀ j, j ∈ m.uploadedChunks ↔ j < n := by
        intro j
        rw [hmem]
        constructor
        · intro h
          obtain ⟨w, hw, rfl⟩ := List.mem_map.mp h
          exact hrange w hw
        · exact hcov j
      have hnodup : m.uploadedChunks.Nodup := by
        have := (chunksOf_applyWrites_wf ws s0
          (by simp [chunksOf, hs0meta]) (by simp [chunksOf, hs0meta])).1
        simpa [chunksOf, hfm] using this
      have hlength : m.uploadedChunks.length = n := by
        have hfs : m.uploadedChunks.toFinset = Finset.range n := by
          ext j
          simp [List.mem_toFinset, Finset.mem_range, hmemrange j]
        have := List.toFinset_card_of_nodup hnodup
        rw [hfs] at this
        simpa using this.symm
      have hfiles : ∀ i ∈ List.range m.totalChunks,
          (applyWrites s0 ws).chunkFiles i = some (chunkSlice file c i) := by
        intro i hi
        rw [List.mem_range, htotal] at hi
        rw [applyWrites_chunkFiles, hs0files]
        exact hdata i hi
      simp only [mergeChunks, hfm]
      have hlen2 : ¬ (m.uploadedChunks.length ≠ m.totalChunks) := by
        rw [hlength, htotal]
        exact fun h => h rfl
      rw [if_neg hlen2]
      rw [readChunks_ok _ _ _ hfiles]
      show Except.ok (List.flatten ((List.range m.totalChunks).map
        (chunkSlice file c))) = Except.ok file
      rw [htotal, flatten_chunkSlices c hc n file hlen]

/-- Witness for C6 at a concrete input: a 3-byte file with chunk size 2 and
two chunks, each written once in reverse order. -/
theorem C6_witness :
    ((∀ i, i < 2 → i ∈ ([(1, [3], 5), (0, [1, 2], 6)].map
        (fun w : Nat × List UInt8 × Nat => w.1))) ∧
     (∀ w ∈ ([(1, [3], 5), (0, [1, 2], 6)] :
        List (Nat × List UInt8 × Nat)), w.1 < 2) ∧
     (∀ i, i < 2 → writtenData none [(1, [3], 5), (0, [1, 2], 6)] i =
        some (chunkSlice [1, 2, 3] 2 i)) ∧
     (0 < 2) ∧ ([1, 2, 3] : List UInt8).length ≤ 2 * 2) ∧
    mergeChunks "u" (applyWrites
        (initUpload emptyUploadDir "u" 2 "t" false 0).1
        [(1, [3], 5), (0, [1, 2], 6)]) = .ok [1, 2, 3] :=
  ⟨⟨by decide, by decide, by decide, by decide, by decide⟩,
   (C6_merge_reconstructs_file "u" "t" false 0 2 2 [1, 2, 3]
      [(1, [3], 5), (0, [1, 2], 6)] (fun _ => "h")
      (by decide) (by decide) (by decide) (by decide) (by decide)).1⟩

end Fde
